import Mathlib

/-!
Verification of the evaluation core of a small Scheme interpreter
(syntax tree → expression tree → value), shallowly embedded from the
C++ sources `utils.hpp`, `value.cpp`, `parser.cpp` and `evaluation.cpp`.

Modelling conventions:
* `NumericType` (defined in the absent `Def.hpp`) is modelled as the
  unbounded `Int`; native-range overflow is out of scope for the
  properties below except where the source checks it explicitly (`expt`).
* C++ `/` and `%` on signed integers truncate toward zero; they are
  modelled by `Int.tdiv` / `Int.tmod`.
* The mutable environment chain (`AssocList` nodes held by shared
  pointers) is modelled by a heap: a list of nodes addressed by their
  index, with `Env = Option Nat` playing the role of the possibly-null
  `Assoc` smart pointer.  In-place mutation (`modify`) rewrites a stored
  node, which is exactly how `letrec`, `define` and `set!` make updates
  visible through every shared reference.
* Evaluation can diverge, so the evaluator takes a fuel parameter and
  fails with "out of fuel" when it runs out; the chain walks `find` /
  `modify` are bounded by the heap size (chains are acyclic because a
  node's `next` always points to an older node).
* `display` writes to standard output, an external collaborator; its
  result value is what is modelled.
-/

/-- C++ `NumericType` (from the absent `Def.hpp`), modelled as unbounded `Int`. -/
abbrev NumericType := Int

/-- Euclid's loop from `util::gcd` on non-negative operands:
`while (b != 0) { t = b; b = a % b; a = t; }; return a`.
The first argument is fuel; `b + 1` rounds always suffice because the
second operand strictly decreases. -/
def gcdFuel : Nat → Nat → Nat → Nat
  | 0, a, _ => a
  | _ + 1, a, 0 => a
  | f + 1, a, b => gcdFuel f b (a % b)

/-- `util::gcd`: both operands are replaced by their absolute values,
then Euclid's loop runs; the result is non-negative. -/
def util.gcd (a b : Int) : Int :=
  Int.ofNat (gcdFuel (b.natAbs + 1) a.natAbs b.natAbs)

/-- `util::lcm`: `std::abs(a) / gcd(a, b) * std::abs(b)`. -/
def util.lcm (a b : Int) : Int :=
  Int.tdiv (Int.ofNat a.natAbs) (util.gcd a b) * Int.ofNat b.natAbs

/-- `util::normalize_rational`: divides numerator and denominator by
their gcd, in place.  The C++ function returns the gcd and mutates its
reference arguments; the modelled function returns the updated pair.
Note that it does NOT adjust signs: a negative denominator stays
negative. -/
def util.normalize_rational (num den : Int) : Int × Int :=
  let g := util.gcd num den
  (Int.tdiv num g, Int.tdiv den g)

/-- `util::is_valid_variable_name`: non-empty, the first character is
not a digit, `.` (46) or `@` (64), and no character is `#` (35),
apostrophe (39), double quote (34) or backquote (96). -/
def util.is_valid_variable_name (s : String) : Bool :=
  match s.data with
  | [] => false
  | first :: _ =>
    if first.isDigit || first = Char.ofNat 46 || first = Char.ofNat 64 then false
    else s.data.all fun c =>
      !(c = Char.ofNat 35 || c = Char.ofNat 39 || c = Char.ofNat 34 || c = Char.ofNat 96)

/-- The `ExprType` tags (from `Def.hpp`, known from their uses in
`parser.cpp` and `evaluation.cpp`). -/
inductive ExprType where
  | E_PLUS | E_MINUS | E_MUL | E_DIV | E_MODULO | E_EXPT
  | E_LT | E_LE | E_EQ | E_GE | E_GT
  | E_CONS | E_CAR | E_CDR | E_LIST | E_SETCAR | E_SETCDR
  | E_NOT | E_AND | E_OR
  | E_EQQ | E_BOOLQ | E_INTQ | E_NULLQ | E_PAIRQ | E_PROCQ
  | E_SYMBOLQ | E_LISTQ | E_STRINGQ
  | E_DISPLAY | E_VOID | E_EXIT
  | E_BEGIN | E_QUOTE | E_IF | E_COND | E_LAMBDA | E_DEFINE
  | E_LET | E_LETREC | E_SET
deriving DecidableEq, Repr

/-- Modelled from the spec: the process-wide primitive-operator table
(`std::map<std::string, ExprType> primitives`), whose initialisation is
not among the supplied sources.  The operator names are those confirmed
by the arity-error messages in `List::parse` and by §4.1/§4.4 of the
specification. -/
def primitives : List (String × ExprType) :=
  [("+", .E_PLUS), ("-", .E_MINUS), ("*", .E_MUL), ("/", .E_DIV),
   ("modulo", .E_MODULO), ("expt", .E_EXPT),
   ("<", .E_LT), ("<=", .E_LE), ("=", .E_EQ), (">=", .E_GE), (">", .E_GT),
   ("cons", .E_CONS), ("car", .E_CAR), ("cdr", .E_CDR), ("list", .E_LIST),
   ("set-car!", .E_SETCAR), ("set-cdr!", .E_SETCDR),
   ("not", .E_NOT), ("and", .E_AND), ("or", .E_OR),
   ("eq?", .E_EQQ), ("boolean?", .E_BOOLQ), ("number?", .E_INTQ),
   ("null?", .E_NULLQ), ("pair?", .E_PAIRQ), ("procedure?", .E_PROCQ),
   ("symbol?", .E_SYMBOLQ), ("list?", .E_LISTQ), ("string?", .E_STRINGQ),
   ("display", .E_DISPLAY), ("void", .E_VOID), ("exit", .E_EXIT)]

/-- Modelled from the spec: the reserved-word table
(`std::map<std::string, ExprType> reserved_words`), whose initialisation
is not among the supplied sources; the keywords are those dispatched in
`List::parse`. -/
def reserved_words : List (String × ExprType) :=
  [("begin", .E_BEGIN), ("quote", .E_QUOTE), ("if", .E_IF), ("cond", .E_COND),
   ("lambda", .E_LAMBDA), ("define", .E_DEFINE), ("let", .E_LET),
   ("letrec", .E_LETREC), ("set!", .E_SET)]

/-- Syntax-tree nodes, as produced by the external reader: the
subclasses of `Syntax` used in `parser.cpp` / `evaluation.cpp`. -/
inductive SynTree where
  | Number (n : NumericType)
  | RationalSyntax (numerator denominator : NumericType)
  | StringSyntax (s : String)
  | SymbolSyntax (s : String)
  | TrueSyntax
  | FalseSyntax
  | List (stxs : List SynTree)
deriving Repr

/-- Expression-tree nodes: the `Expr` subclasses of `expr.hpp`, one
constructor per class mentioned in `parser.cpp` / `evaluation.cpp`. -/
inductive Expr where
  | Fixnum (n : NumericType)
  | RationalNum (numerator denominator : NumericType)
  | StringExpr (s : String)
  | True
  | False
  | MakeVoid
  | Exit
  | Var (x : String)
  | Plus (rand1 rand2 : Expr)
  | Minus (rand1 rand2 : Expr)
  | Mult (rand1 rand2 : Expr)
  | Div (rand1 rand2 : Expr)
  | Modulo (rand1 rand2 : Expr)
  | Expt (rand1 rand2 : Expr)
  | PlusVar (rands : List Expr)
  | MinusVar (rands : List Expr)
  | MultVar (rands : List Expr)
  | DivVar (rands : List Expr)
  | Less (rand1 rand2 : Expr)
  | LessEq (rand1 rand2 : Expr)
  | Equal (rand1 rand2 : Expr)
  | GreaterEq (rand1 rand2 : Expr)
  | Greater (rand1 rand2 : Expr)
  | LessVar (rands : List Expr)
  | LessEqVar (rands : List Expr)
  | EqualVar (rands : List Expr)
  | GreaterEqVar (rands : List Expr)
  | GreaterVar (rands : List Expr)
  | Cons (rand1 rand2 : Expr)
  | Car (rand : Expr)
  | Cdr (rand : Expr)
  | ListFunc (rands : List Expr)
  | SetCar (rand1 rand2 : Expr)
  | SetCdr (rand1 rand2 : Expr)
  | Not (rand : Expr)
  | AndVar (rands : List Expr)
  | OrVar (rands : List Expr)
  | IsEq (rand1 rand2 : Expr)
  | IsBoolean (rand : Expr)
  | IsFixnum (rand : Expr)
  | IsNull (rand : Expr)
  | IsPair (rand : Expr)
  | IsProcedure (rand : Expr)
  | IsSymbol (rand : Expr)
  | IsString (rand : Expr)
  | IsList (rand : Expr)
  | Display (rand : Expr)
  | Begin (es : List Expr)
  | Quote (s : SynTree)
  | If (cond conseq alter : Expr)
  | Cond (clauses : List (List Expr))
  | Lambda (x : List String) (e : Expr)
  | Apply (rator : Expr) (rand : List Expr)
  | Define (var : String) (e : Expr)
  | Let (bind : List (String × Expr)) (body : Expr)
  | Letrec (bind : List (String × Expr)) (body : Expr)
  | Set (var : String) (e : Expr)
deriving Repr

/-- A heap address of an `AssocList` node; `Env` is the possibly-null
`Assoc` smart pointer. -/
abbrev Env := Option Nat

/-- Runtime values: the `ValueBase` subclasses of `value.cpp`.  A
`Procedure` stores its parameter list, its body expression and a shared
reference to its defining environment. -/
inductive Value where
  | Void
  | Integer (n : NumericType)
  | Rational (numerator denominator : NumericType)
  | Boolean (b : Bool)
  | Symbol (s : String)
  | String (s : String)
  | Null
  | Terminate
  | Pair (car cdr : Value)
  | Procedure (parameters : List String) (e : Expr) (env : Env)
deriving Repr

/-- One environment node: `AssocList { x, v, next }`.  `v` is an
`Option` because `Define::eval` and `Letrec::eval` bind a null `Value`
placeholder before the real value is computed. -/
structure AssocList where
  x : String
  v : Option Value
  next : Env
deriving Repr

/-- The heap of environment nodes; an `Env` address indexes this list. -/
abbrev Store := List AssocList

/-- `empty()`: the null environment. -/
def emptyEnv : Env := none

/-- `extend(x, v, lst)`: allocates a fresh node whose `next` is the old
chain head and returns the new head (the C++ version never mutates an
existing node). -/
def extend (x : String) (v : Option Value) (env : Env) (st : Store) : Env × Store :=
  (some st.length, st ++ [⟨x, v, env⟩])

/-- The chain walk of `find`, bounded by fuel.  Chains built by `extend`
are acyclic (`next` always points to an older node), so `st.length`
steps always suffice; the fuel-exhaustion and dangling-address branches
are unreachable on stores built by the interpreter. -/
def findLoop (st : Store) : Nat → Env → String → Option Value
  | 0, _, _ => none
  | _ + 1, none, _ => none
  | fuel + 1, some a, x =>
    match st[a]? with
    | none => none
    | some node => if node.x = x then node.v else findLoop st fuel node.next x

/-- `find(x, l)`: first binding of `x` wins; returns the stored value,
which is the null placeholder or absent — both map to `none`, exactly
as both map to a null `Value` in the C++ code. -/
def find (x : String) (env : Env) (st : Store) : Option Value :=
  findLoop st st.length env x

/-- The chain walk of `modify`, bounded by fuel like `findLoop`. -/
def modifyLoop (st : Store) : Nat → Env → String → Value → Except String Store
  | 0, _, x, _ => .error ("undefined variable: " ++ x)
  | _ + 1, none, x, _ => .error ("undefined variable: " ++ x)
  | fuel + 1, some a, x, v =>
    match st[a]? with
    | none => .error ("undefined variable: " ++ x)
    | some node =>
      if node.x = x then .ok (st.set a { node with v := some v })
      else modifyLoop st fuel node.next x v

/-- `modify(x, v, lst)`: rewrites the first node binding `x` in place
(visible through every shared reference to that node), or fails.
(Named `modifyEnv` because `modify` is taken by the state monad.) -/
def modifyEnv (x : String) (v : Value) (env : Env) (st : Store) : Except String Store :=
  modifyLoop st st.length env x v

/-- The `Rational` constructor (`value.cpp`): rejects a zero
denominator, moves the sign to the numerator, then reduces by the gcd.
`RationalV` is the factory function wrapping it. -/
def RationalV (num den : NumericType) : Except String Value :=
  if den = 0 then .error "Division by zero"
  else
    let num1 := if den < 0 then -num else num
    let den1 := if den < 0 then -den else den
    let nd := util.normalize_rational num1 den1
    .ok (.Rational nd.1 nd.2)

/-- `toRational` (`evaluation.cpp`): views a numeric value as a
numerator/denominator pair (integers get denominator 1). -/
def toRational (v : Value) : Except String (Int × Int) :=
  match v with
  | .Integer n => .ok (n, 1)
  | .Rational num den => .ok (num, den)
  | _ => .error "+ is only defined for numbers"

/-- `Plus::evalRator`: combines over `lcm` of the denominators; the
collapse-to-`Integer` test looks at that `lcm` (before any reduction). -/
def Plus.evalRator (rand1 rand2 : Value) : Except String Value := do
  let (num1, den1) ← toRational rand1
  let (num2, den2) ← toRational rand2
  let res_num := Int.tdiv (num1 * den2 + num2 * den1) (util.gcd den1 den2)
  let res_den := util.lcm den1 den2
  if res_den = 1 then pure (.Integer res_num) else RationalV res_num res_den

/-- `Minus::evalRator`, structured exactly like `Plus::evalRator`. -/
def Minus.evalRator (rand1 rand2 : Value) : Except String Value := do
  let (num1, den1) ← toRational rand1
  let (num2, den2) ← toRational rand2
  let res_num := Int.tdiv (num1 * den2 - num2 * den1) (util.gcd den1 den2)
  let res_den := util.lcm den1 den2
  if res_den = 1 then pure (.Integer res_num) else RationalV res_num res_den

/-- `Mult::evalRator`: multiplies, normalizes, then collapses if the
reduced denominator is 1. -/
def Mult.evalRator (rand1 rand2 : Value) : Except String Value := do
  let (num1, den1) ← toRational rand1
  let (num2, den2) ← toRational rand2
  let nd := util.normalize_rational (num1 * num2) (den1 * den2)
  if nd.2 = 1 then pure (.Integer nd.1) else RationalV nd.1 nd.2

/-- `Div::evalRator`: rejects a zero divisor numerator, cross-multiplies,
normalizes, then collapses if the reduced denominator is 1. -/
def Div.evalRator (rand1 rand2 : Value) : Except String Value := do
  let (num1, den1) ← toRational rand1
  let (num2, den2) ← toRational rand2
  if num2 = 0 then .error "Division by zero"
  else
    let nd := util.normalize_rational (num1 * den2) (den1 * num2)
    if nd.2 = 1 then pure (.Integer nd.1) else RationalV nd.1 nd.2

/-- `Modulo::evalRator`: integers only, C++ truncating `%`. -/
def Modulo.evalRator (rand1 rand2 : Value) : Except String Value :=
  match rand1, rand2 with
  | .Integer dividend, .Integer divisor =>
    if divisor = 0 then .error "Division by zero"
    else .ok (.Integer (Int.tmod dividend divisor))
  | _, _ => .error "modulo is only defined for integers"

/-- One iteration of the `PlusVar::evalRator` fold: scale to the common
`lcm` denominator, add, renormalize. -/
def plusStep (res : Int × Int) (arg : Value) : Except String (Int × Int) := do
  let (cur_num, cur_den) ← toRational arg
  let com_lcm := util.lcm res.2 cur_den
  let n := res.1 * Int.tdiv com_lcm res.2 + cur_num * Int.tdiv com_lcm cur_den
  pure (util.normalize_rational n com_lcm)

/-- `PlusVar::evalRator`: an empty operand list yields the integer 0;
otherwise a left fold from 0/1, collapsing to `Integer` when the final
(reduced) denominator is 1. -/
def PlusVar.evalRator (args : List Value) : Except String Value :=
  match args with
  | [] => .ok (.Integer 0)
  | _ => do
    let nd ← args.foldlM plusStep (0, 1)
    if nd.2 = 1 then pure (.Integer nd.1) else RationalV nd.1 nd.2

/-- One iteration of the `MinusVar::evalRator` fold. -/
def minusStep (res : Int × Int) (arg : Value) : Except String (Int × Int) := do
  let (cur_num, cur_den) ← toRational arg
  let com_lcm := util.lcm res.2 cur_den
  let n := res.1 * Int.tdiv com_lcm res.2 - cur_num * Int.tdiv com_lcm cur_den
  pure (util.normalize_rational n com_lcm)

/-- `MinusVar::evalRator`: at least one operand; `(- x)` negates,
otherwise a left fold subtracting the remaining operands from the
first; the result is normalized once more and collapsed when the
denominator is 1. -/
def MinusVar.evalRator (args : List Value) : Except String Value :=
  match args with
  | [] => .error "Minus expression expects at least one argument."
  | [arg] => do
    let (num, den) ← toRational arg
    let nd := util.normalize_rational (-num) den
    if nd.2 = 1 then pure (.Integer nd.1) else RationalV nd.1 nd.2
  | arg0 :: rest => do
    let (num0, den0) ← toRational arg0
    let acc ← rest.foldlM minusStep (num0, den0)
    let nd := util.normalize_rational acc.1 acc.2
    if nd.2 = 1 then pure (.Integer nd.1) else RationalV nd.1 nd.2

/-- One iteration of the `MultVar::evalRator` fold. -/
def multStep (res : Int × Int) (arg : Value) : Except String (Int × Int) := do
  let (cur_num, cur_den) ← toRational arg
  pure (util.normalize_rational (res.1 * cur_num) (res.2 * cur_den))

/-- `MultVar::evalRator`: an empty operand list yields the integer 1;
otherwise a left fold from 1/1 with normalization at each step. -/
def MultVar.evalRator (args : List Value) : Except String Value :=
  match args with
  | [] => .ok (.Integer 1)
  | _ => do
    let nd ← args.foldlM multStep (1, 1)
    if nd.2 = 1 then pure (.Integer nd.1) else RationalV nd.1 nd.2

/-- One iteration of the `DivVar::evalRator` fold: rejects a zero
divisor, then cross-multiplies and normalizes. -/
def divStep (res : Int × Int) (arg : Value) : Except String (Int × Int) := do
  let (cur_num, cur_den) ← toRational arg
  if cur_num = 0 then .error "Division by zero"
  else pure (util.normalize_rational (res.1 * cur_den) (res.2 * cur_num))

/-- `DivVar::evalRator`: at least one operand; `(/ x)` is the
reciprocal (zero rejected), otherwise a left fold dividing the first
operand by the rest; normalized once more at the end. -/
def DivVar.evalRator (args : List Value) : Except String Value :=
  match args with
  | [] => .error "Division expression expects at least one argument."
  | [arg] => do
    let (num, den) ← toRational arg
    if num = 0 then .error "Division by zero"
    else
      let nd := util.normalize_rational den num
      if nd.2 = 1 then pure (.Integer nd.1) else RationalV nd.1 nd.2
  | arg0 :: rest => do
    let (num0, den0) ← toRational arg0
    let acc ← rest.foldlM divStep (num0, den0)
    let nd := util.normalize_rational acc.1 acc.2
    if nd.2 = 1 then pure (.Integer nd.1) else RationalV nd.1 nd.2

/-- `Expt::evalRator`: non-negative integer exponents only, with
exponentiation by squaring and overflow checks against the host `int`
range (the source compares intermediates with `INT_MAX`/`INT_MIN`). -/
def exptLoop : Nat → Int → Int → Nat → Except String Int
  | 0, result, _, _ => .ok result
  | _ + 1, result, _, 0 => .ok result
  | f + 1, result, b, n =>
    let result1 := if n % 2 = 1 then result * b else result
    if n % 2 = 1 && (result1 > 2147483647 || result1 < -2147483648) then
      .error "Integer overflow in expt"
    else
      let b1 := b * b
      if (b1 > 2147483647 || b1 < -2147483648) && n > 1 then
        .error "Integer overflow in expt"
      else exptLoop f result1 b1 (n / 2)

/-- `Expt::evalRator` (see `exptLoop`). -/
def Expt.evalRator (rand1 rand2 : Value) : Except String Value :=
  match rand1, rand2 with
  | .Integer base, .Integer exponent =>
    if exponent < 0 then .error "Negative exponent not supported for integers"
    else if base = 0 && exponent = 0 then .error "0^0 is undefined"
    else do
      let r ← exptLoop (exponent.natAbs + 1) 1 base exponent.natAbs
      pure (.Integer r)
  | _, _ => .error "Wrong typename"

/-- `compareNumericValues`: views both operands as fractions, then
cross-multiplies and compares; `-1`, `0`, `1` for `<`, `=`, `>`. -/
def compareNumericValues (v1 v2 : Value) : Except String Int := do
  let (num1, den1) ←
    match v1 with
    | .Integer n => pure ((n : Int), (1 : Int))
    | .Rational num den => pure (num, den)
    | _ => Except.error "Numeric comparison expects a number"
  let (num2, den2) ←
    match v2 with
    | .Integer n => pure ((n : Int), (1 : Int))
    | .Rational num den => pure (num, den)
    | _ => Except.error "Numeric comparison expects a number"
  let left_product := num1 * den2
  let right_product := num2 * den1
  if left_product < right_product then pure (-1)
  else if left_product > right_product then pure 1
  else pure 0

/-- `Less::evalRator`. -/
def Less.evalRator (rand1 rand2 : Value) : Except String Value := do
  let c ← compareNumericValues rand1 rand2
  pure (.Boolean (decide (c = -1)))

/-- `LessEq::evalRator`. -/
def LessEq.evalRator (rand1 rand2 : Value) : Except String Value := do
  let c ← compareNumericValues rand1 rand2
  pure (.Boolean (decide (c ≤ 0)))

/-- `Equal::evalRator`. -/
def Equal.evalRator (rand1 rand2 : Value) : Except String Value := do
  let c ← compareNumericValues rand1 rand2
  pure (.Boolean (decide (c = 0)))

/-- `GreaterEq::evalRator`. -/
def GreaterEq.evalRator (rand1 rand2 : Value) : Except String Value := do
  let c ← compareNumericValues rand1 rand2
  pure (.Boolean (decide (c ≥ 0)))

/-- `Greater::evalRator`. -/
def Greater.evalRator (rand1 rand2 : Value) : Except String Value := do
  let c ← compareNumericValues rand1 rand2
  pure (.Boolean (decide (c = 1)))

/-- The adjacent-pair loop shared by the variadic comparison forms:
returns `false` as soon as a pair compares the wrong way. -/
def chainCompare (bad : Int → Bool) : List Value → Except String Bool
  | x :: y :: rest => do
    let c ← compareNumericValues x y
    if bad c then pure false else chainCompare bad (y :: rest)
  | _ => pure true

/-- `LessVar::evalRator`. -/
def LessVar.evalRator (args : List Value) : Except String Value :=
  if args.length < 2 then .error "'< ' expects at least two arguments"
  else do
    let b ← chainCompare (fun c => c ≥ 0) args
    pure (.Boolean b)

/-- `LessEqVar::evalRator`. -/
def LessEqVar.evalRator (args : List Value) : Except String Value :=
  if args.length < 2 then .error "'<=' expects at least two arguments"
  else do
    let b ← chainCompare (fun c => c > 0) args
    pure (.Boolean b)

/-- `EqualVar::evalRator`. -/
def EqualVar.evalRator (args : List Value) : Except String Value :=
  if args.length < 2 then .error "'= ' expects at least two arguments"
  else do
    let b ← chainCompare (fun c => !(c = 0)) args
    pure (.Boolean b)

/-- `GreaterEqVar::evalRator`. -/
def GreaterEqVar.evalRator (args : List Value) : Except String Value :=
  if args.length < 2 then .error "'>=' expects at least two arguments"
  else do
    let b ← chainCompare (fun c => c < 0) args
    pure (.Boolean b)

/-- `GreaterVar::evalRator`. -/
def GreaterVar.evalRator (args : List Value) : Except String Value :=
  if args.length < 2 then .error "'> ' expects at least two arguments"
  else do
    let b ← chainCompare (fun c => c ≤ 0) args
    pure (.Boolean b)

/-- `Cons::evalRator`. -/
def Cons.evalRator (rand1 rand2 : Value) : Except String Value :=
  .ok (.Pair rand1 rand2)

/-- `ListFunc::evalRator`: conses from the last argument down onto `Null`. -/
def ListFunc.evalRator (args : List Value) : Except String Value :=
  .ok (args.foldr .Pair .Null)

/-- The cdr-walk of `IsList::evalRator` (structural: pair mutation is
unimplemented in the source, so pair chains cannot be cyclic). -/
def isListLoop : Value → Bool
  | .Null => true
  | .Pair _ cdr => isListLoop cdr
  | _ => false

/-- `IsList::evalRator`. -/
def IsList.evalRator (rand : Value) : Except String Value :=
  .ok (.Boolean (isListLoop rand))

/-- `Car::evalRator`. -/
def Car.evalRator (rand : Value) : Except String Value :=
  match rand with
  | .Pair car _ => .ok car
  | _ => .error "expects argument to be a pair"

/-- `Cdr::evalRator`. -/
def Cdr.evalRator (rand : Value) : Except String Value :=
  match rand with
  | .Pair _ cdr => .ok cdr
  | _ => .error "expects argument to be a pair"

/-- `SetCar::evalRator` is an empty TODO body in the source (control
falls off the end of a value-returning function, which is undefined
behaviour); modelled as a failure. -/
def SetCar.evalRator (_ _ : Value) : Except String Value :=
  .error "set-car! is unimplemented in the source"

/-- `SetCdr::evalRator`, unimplemented like `SetCar::evalRator`. -/
def SetCdr.evalRator (_ _ : Value) : Except String Value :=
  .error "set-cdr! is unimplemented in the source"

/-- `IsEq::evalRator` (`eq?`): value comparison for integers, booleans
and symbols; `Null`/`Void` pairs compare true; every other combination
compares the two shared-pointer addresses in the source.  Two distinct
evaluations allocate distinct `shared_ptr` objects, and no claim below
exercises the aliasing cases, so the pointer fallback is modelled as
`false`. -/
def IsEq.evalRator (rand1 rand2 : Value) : Except String Value :=
  match rand1, rand2 with
  | .Integer n1, .Integer n2 => .ok (.Boolean (decide (n1 = n2)))
  | .Boolean b1, .Boolean b2 => .ok (.Boolean (b1 == b2))
  | .Symbol s1, .Symbol s2 => .ok (.Boolean (s1 == s2))
  | .Null, .Null => .ok (.Boolean true)
  | .Void, .Void => .ok (.Boolean true)
  | _, _ => .ok (.Boolean false)

/-- `IsBoolean::evalRator` (`boolean?`). -/
def IsBoolean.evalRator (rand : Value) : Except String Value :=
  match rand with
  | .Boolean _ => .ok (.Boolean true)
  | _ => .ok (.Boolean false)

/-- `IsFixnum::evalRator` (`number?`): tests the `V_INT` tag only. -/
def IsFixnum.evalRator (rand : Value) : Except String Value :=
  match rand with
  | .Integer _ => .ok (.Boolean true)
  | _ => .ok (.Boolean false)

/-- `IsNull::evalRator` (`null?`). -/
def IsNull.evalRator (rand : Value) : Except String Value :=
  match rand with
  | .Null => .ok (.Boolean true)
  | _ => .ok (.Boolean false)

/-- `IsPair::evalRator` (`pair?`). -/
def IsPair.evalRator (rand : Value) : Except String Value :=
  match rand with
  | .Pair _ _ => .ok (.Boolean true)
  | _ => .ok (.Boolean false)

/-- `IsProcedure::evalRator` (`procedure?`). -/
def IsProcedure.evalRator (rand : Value) : Except String Value :=
  match rand with
  | .Procedure _ _ _ => .ok (.Boolean true)
  | _ => .ok (.Boolean false)

/-- `IsSymbol::evalRator` (`symbol?`). -/
def IsSymbol.evalRator (rand : Value) : Except String Value :=
  match rand with
  | .Symbol _ => .ok (.Boolean true)
  | _ => .ok (.Boolean false)

/-- `IsString::evalRator` (`string?`). -/
def IsString.evalRator (rand : Value) : Except String Value :=
  match rand with
  | .String _ => .ok (.Boolean true)
  | _ => .ok (.Boolean false)

/-- `Not::evalRator`: true exactly on the boolean `#f`. -/
def Not.evalRator (rand : Value) : Except String Value :=
  match rand with
  | .Boolean false => .ok (.Boolean true)
  | _ => .ok (.Boolean false)

/-- `Display::evalRator`: writes the value (strings unquoted) and a
newline to standard output — an external collaborator — and returns
`Void`. -/
def Display.evalRator (_ : Value) : Except String Value :=
  .ok .Void

/-- Is this node the literal `.` symbol? (the dot scan of
`convertSyntaxToValue`). -/
def isDot (s : SynTree) : Bool :=
  match s with
  | .SymbolSyntax str => str == "."
  | _ => false

/-- Index of the first literal `.` in a quoted parenthesized datum. -/
def findDotIdx : List SynTree → Option Nat
  | [] => none
  | x :: rest => if isDot x then some 0 else (findDotIdx rest).map (· + 1)

/-- The dot analysis of `convertSyntaxToValue`: no dot → proper list of
all the elements; dot first → error; dot not followed by exactly one
trailing element → error; otherwise the elements before the dot plus
the single element after it.  The whole scan happens before any element
is converted, as in the source. -/
def splitDot (stxs : List SynTree) : Except String (List SynTree × Option SynTree) :=
  match findDotIdx stxs with
  | none => .ok (stxs, none)
  | some 0 => .error "quote: malformed dotted list (dot cannot be the first element)"
  | some (i + 1) =>
    match stxs.drop (i + 1) with
    | [_, c] => .ok (stxs.take (i + 1), some c)
    | _ => .error "quote: malformed dotted list (dot must be followed by exactly one element)"

/-- The right-to-left consing loop of `convertSyntaxToValue`: the C++
`for (i = hi; i >= 0; --i)` converts the rightmost element first, so
the recursion converts the tail before the head element. -/
def consOnto (cs : SynTree → Except String Value) : List SynTree → Value → Except String Value
  | [], tail => .ok tail
  | x :: rest, tail => do
    let t ← consOnto cs rest tail
    let c ← cs x
    pure (.Pair c t)

/-- `convertSyntaxToValue` (`evaluation.cpp`): converts a quoted syntax
datum into a `Value` by structural recursion.  The fuel argument only
bounds the recursion depth (the source recurses on the tree directly);
the "Unknown syntax type" fallback of the source is unreachable because
the variant set is closed. -/
def convertSyntaxToValue : Nat → SynTree → Except String Value
  | 0, _ => .error "out of fuel"
  | fuel + 1, s =>
    match s with
    | .Number n => .ok (.Integer n)
    | .RationalSyntax num den => RationalV num den
    | .StringSyntax str => .ok (.String str)
    | .SymbolSyntax str => .ok (.Symbol str)
    | .TrueSyntax => .ok (.Boolean true)
    | .FalseSyntax => .ok (.Boolean false)
    | .List stxs => do
      let (pre, cdrOpt) ← splitDot stxs
      let tail ←
        match cdrOpt with
        | some c => convertSyntaxToValue fuel c
        | none => pure Value.Null
      consOnto (convertSyntaxToValue fuel) pre tail

/-- Parse each operand in order, left to right (the loops over
`stxs[1..]` in `List::parse`); `p` is the recursive parse. -/
def mapParse (p : SynTree → Env → Except String Expr) :
    List SynTree → Env → Except String (List Expr)
  | [], _ => .ok []
  | x :: rest, env => do
    let e ← p x env
    let es ← mapParse p rest env
    pure (e :: es)

/-- The primitive-operator dispatch of `List::parse`: operands are
already parsed; the arity checks and the binary-versus-variadic choice
(`parameters.size() == 2`) follow the C++ switch case by case.  The
`default` branch is the source's "Primitive parser not yet implemented"
throw, unreachable for the tags stored in `primitives`. -/
def parsePrimitive (op : String) (t : ExprType) (parameters : List Expr) :
    Except String Expr :=
  match t with
  | .E_PLUS =>
    if parameters.length < 2 then .error "+ expects at least 2 arguments"
    else match parameters with
      | [a, b] => .ok (.Plus a b)
      | _ => .ok (.PlusVar parameters)
  | .E_MINUS =>
    if parameters.length < 1 then .error "- expects at least 1 argument"
    else match parameters with
      | [a, b] => .ok (.Minus a b)
      | _ => .ok (.MinusVar parameters)
  | .E_MUL =>
    if parameters.length < 2 then .error "* expects at least 2 arguments"
    else match parameters with
      | [a, b] => .ok (.Mult a b)
      | _ => .ok (.MultVar parameters)
  | .E_DIV =>
    if parameters.length < 1 then .error "/ expects at least 1 argument"
    else match parameters with
      | [a, b] => .ok (.Div a b)
      | _ => .ok (.DivVar parameters)
  | .E_MODULO =>
    match parameters with
    | [a, b] => .ok (.Modulo a b)
    | _ => .error "modulo expects exactly 2 arguments"
  | .E_EXPT =>
    match parameters with
    | [a, b] => .ok (.Expt a b)
    | _ => .error "expt expects exactly 2 arguments"
  | .E_LT =>
    if parameters.length < 2 then .error "< expects at least 2 arguments"
    else match parameters with
      | [a, b] => .ok (.Less a b)
      | _ => .ok (.LessVar parameters)
  | .E_LE =>
    if parameters.length < 2 then .error "<= expects at least 2 arguments"
    else match parameters with
      | [a, b] => .ok (.LessEq a b)
      | _ => .ok (.LessEqVar parameters)
  | .E_EQ =>
    if parameters.length < 2 then .error "= expects at least 2 arguments"
    else match parameters with
      | [a, b] => .ok (.Equal a b)
      | _ => .ok (.EqualVar parameters)
  | .E_GE =>
    if parameters.length < 2 then .error ">= expects at least 2 arguments"
    else match parameters with
      | [a, b] => .ok (.GreaterEq a b)
      | _ => .ok (.GreaterEqVar parameters)
  | .E_GT =>
    if parameters.length < 2 then .error "> expects at least 2 arguments"
    else match parameters with
      | [a, b] => .ok (.Greater a b)
      | _ => .ok (.GreaterVar parameters)
  | .E_CONS =>
    match parameters with
    | [a, b] => .ok (.Cons a b)
    | _ => .error "cons expects exactly 2 arguments"
  | .E_CAR =>
    match parameters with
    | [a] => .ok (.Car a)
    | _ => .error "car expects exactly 1 argument"
  | .E_CDR =>
    match parameters with
    | [a] => .ok (.Cdr a)
    | _ => .error "cdr expects exactly 1 argument"
  | .E_LIST => .ok (.ListFunc parameters)
  | .E_SETCAR =>
    match parameters with
    | [a, b] => .ok (.SetCar a b)
    | _ => .error "set-car! expects exactly 2 arguments"
  | .E_SETCDR =>
    match parameters with
    | [a, b] => .ok (.SetCdr a b)
    | _ => .error "set-cdr! expects exactly 2 arguments"
  | .E_NOT =>
    match parameters with
    | [a] => .ok (.Not a)
    | _ => .error "not expects exactly 1 argument"
  | .E_AND => .ok (.AndVar parameters)
  | .E_OR => .ok (.OrVar parameters)
  | .E_EQQ =>
    match parameters with
    | [a, b] => .ok (.IsEq a b)
    | _ => .error "eq? expects exactly 2 arguments"
  | .E_BOOLQ =>
    match parameters with
    | [a] => .ok (.IsBoolean a)
    | _ => .error "boolean? expects exactly 1 argument"
  | .E_INTQ =>
    match parameters with
    | [a] => .ok (.IsFixnum a)
    | _ => .error "number? expects exactly 1 argument"
  | .E_NULLQ =>
    match parameters with
    | [a] => .ok (.IsNull a)
    | _ => .error "null? expects exactly 1 argument"
  | .E_PAIRQ =>
    match parameters with
    | [a] => .ok (.IsPair a)
    | _ => .error "pair? expects exactly 1 argument"
  | .E_PROCQ =>
    match parameters with
    | [a] => .ok (.IsProcedure a)
    | _ => .error "procedure? expects exactly 1 argument"
  | .E_SYMBOLQ =>
    match parameters with
    | [a] => .ok (.IsSymbol a)
    | _ => .error "symbol? expects exactly 1 argument"
  | .E_LISTQ =>
    match parameters with
    | [a] => .ok (.IsList a)
    | _ => .error "list? expects exactly 1 argument"
  | .E_STRINGQ =>
    match parameters with
    | [a] => .ok (.IsString a)
    | _ => .error "string? expects exactly 1 argument"
  | .E_DISPLAY =>
    match parameters with
    | [a] => .ok (.Display a)
    | _ => .error "display expects exactly 1 argument"
  | .E_VOID =>
    match parameters with
    | [] => .ok .MakeVoid
    | _ => .error "void expects exactly 0 arguments"
  | .E_EXIT =>
    match parameters with
    | [] => .ok .Exit
    | _ => .error "exit expects exactly 0 arguments"
  | _ => .error ("Primitive parser not yet implemented for: " ++ op)

/-- The clause loop of the `cond` case of `List::parse`.  Note: the
source tries to recognise an `else` head with
`dynamic_cast<Symbol*>(...)` — but `Symbol` is the runtime-value class,
not the syntax class `SymbolSyntax`, so that cross-hierarchy cast is
always null: no clause is ever treated as an `else` clause and the
"else must be last" error is unreachable.  Every clause is parsed
whole. -/
def parseCondClauses (p : SynTree → Env → Except String Expr) :
    List SynTree → Env → Except String (List (List Expr))
  | [], _ => .ok []
  | c :: rest, env =>
    match c with
    | .List cstxs =>
      if cstxs.isEmpty then .error "Empty clause in cond expression"
      else do
        let clause ← mapParse p cstxs env
        let more ← parseCondClauses p rest env
        pure (clause :: more)
    | _ => .error "Cond clause must be a list"

/-- The parameter-list loop of the `lambda` case of `List::parse`. -/
def lambdaParams : List SynTree → Except String (List String)
  | [] => .ok []
  | .SymbolSyntax s :: rest => do
    let ns ← lambdaParams rest
    pure (s :: ns)
  | _ :: _ => .error "lambda: parameters must be symbols."

/-- The parameter-list loop of the function form of the `define` case
of `List::parse`. -/
def defineParams : List SynTree → Except String (List String)
  | [] => .ok []
  | .SymbolSyntax s :: rest => do
    let ns ← defineParams rest
    pure (s :: ns)
  | _ :: _ => .error "define: parameter must be a symbol"

/-- The binding-list loop shared by the `let`/`letrec` cases of
`List::parse` (`op` only feeds the error messages, typos included). -/
def parseBindings (p : SynTree → Env → Except String Expr) (op : String) :
    List SynTree → Env → Except String (List (String × Expr))
  | [], _ => .ok []
  | bp :: rest, env =>
    match bp with
    | .List [nstx, estx] =>
      match nstx with
      | .SymbolSyntax n => do
        let e ← p estx env
        let more ← parseBindings p op rest env
        pure ((n, e) :: more)
      | _ => .error (op ++ ": variable in a binding must be a symbol")
    | .List _ => .error (op ++ ":each binding must be a (variable expression) pair")
    | _ => .error (op ++ ":each binding must be a (variable expression) pair")

/-- The reserved-word dispatch of `List::parse`: `rest` is everything
after the keyword (so the C++ `stxs.size()` is `rest.length + 1`).
Error messages are verbatim, including the "numbrt" typos.  The final
branch is the source's "Unknown reserved word" throw, unreachable for
the tags stored in `reserved_words`. -/
def parseReserved (p : SynTree → Env → Except String Expr) (op : String)
    (t : ExprType) (rest : List SynTree) (env : Env) : Except String Expr :=
  match t with
  | .E_BEGIN => do
    let body ← mapParse p rest env
    pure (.Begin body)
  | .E_QUOTE =>
    match rest with
    | [d] => .ok (.Quote d)
    | _ => .error "Wrong number of arguments for quote"
  | .E_IF =>
    match rest with
    | [c, conseq, alter] => do
      let pc ← p c env
      let pt ← p conseq env
      let pa ← p alter env
      pure (.If pc pt pa)
    | _ => .error "Wrong numbrt of arguments for if"
  | .E_COND =>
    match rest with
    | [] => .error "Wrong numbrt of arguments for cond"
    | _ => do
      let clauses ← parseCondClauses p rest env
      pure (.Cond clauses)
  | .E_LAMBDA =>
    match rest with
    | args :: b1 :: brest =>
      (match args with
       | .List astxs => do
         let parms ← lambdaParams astxs
         match brest with
         | [] => do
           let body ← p b1 env
           pure (.Lambda parms body)
         | _ => do
           let bodies ← mapParse p (b1 :: brest) env
           pure (.Lambda parms (.Begin bodies))
       | _ => .error "lambda: parameters must be a list.")
    | _ => .error "lambda: too few arguments."
  | .E_DEFINE =>
    match rest with
    | [target, body] =>
      (match target with
       | .List fstxs =>
         (match fstxs with
          | [] => .error "define: function name missing"
          | .SymbolSyntax fname :: paramStxs => do
            let params ← defineParams paramStxs
            let be ← p body env
            pure (.Define fname (.Lambda params be))
          | _ :: _ => .error "define: function name must be a symbol")
       | .SymbolSyntax vname => do
         let be ← p body env
         pure (.Define vname be)
       | _ => .error "define: variable name must be a symbol")
    | _ => .error "define: wrong number of arguments"
  | .E_LET =>
    match rest with
    | bindStx :: b1 :: brest =>
      (match bindStx with
       | .List bstxs => do
         let bind ← parseBindings p op bstxs env
         let body ←
           match brest with
           | [] => p b1 env
           | _ => do
             let bodies ← mapParse p (b1 :: brest) env
             pure (Expr.Begin bodies)
         pure (.Let bind body)
       | _ => .error (op ++ ": bindings must be in a list"))
    | _ => .error (op ++ ": bad syntax, requires bindings and a body")
  | .E_LETREC =>
    match rest with
    | bindStx :: b1 :: brest =>
      (match bindStx with
       | .List bstxs => do
         let bind ← parseBindings p op bstxs env
         let body ←
           match brest with
           | [] => p b1 env
           | _ => do
             let bodies ← mapParse p (b1 :: brest) env
             pure (Expr.Begin bodies)
         pure (.Letrec bind body)
       | _ => .error (op ++ ": bindings must be in a list"))
    | _ => .error (op ++ ": bad syntax, requires bindings and a body")
  | .E_SET =>
    match rest with
    | [nstx, estx] =>
      (match nstx with
       | .SymbolSyntax n => do
         let e ← p estx env
         pure (.Set n e)
       | _ => .error "set!: variable must be a symbol")
    | _ => .error "set!: bad syntax, requires a variable and an expression"
  | _ => .error ("Unknown reserved word: " ++ op)

/-- `List::parse` minus the recursion on children (`p` is the recursive
parse): empty list → quoted empty list; non-symbol head → application
(operands parsed before the head, as in the C++ constructor-argument
order); symbol head → primitive table, then reserved-word table, then
`Apply(Var(op), rands)`. -/
def parseList (p : SynTree → Env → Except String Expr)
    (stxs : List SynTree) (env : Env) : Except String Expr :=
  match stxs with
  | [] => .ok (.Quote (.List []))
  | head :: rest =>
    match head with
    | .SymbolSyntax op =>
      (match primitives.lookup op with
       | some t => do
         let parameters ← mapParse p rest env
         parsePrimitive op t parameters
       | none =>
         match reserved_words.lookup op with
         | some t => parseReserved p op t rest env
         | none => do
           let rands ← mapParse p rest env
           pure (.Apply (.Var op) rands))
    | _ => do
      let rands ← mapParse p rest env
      let rator ← p head env
      pure (.Apply rator rands)

/-- The translator entry point: `Syntax::parse` dispatched over the
node kinds (`parser.cpp`).  The environment parameter is threaded but
never consulted, exactly as in the source (the binding check in
`List::parse` is commented out).  Fuel only bounds the recursion
depth. -/
def parse : Nat → SynTree → Env → Except String Expr
  | 0, _, _ => .error "out of fuel"
  | fuel + 1, s, env =>
    match s with
    | .Number n => .ok (.Fixnum n)
    | .RationalSyntax num den => .ok (.RationalNum num den)
    | .SymbolSyntax str =>
      if util.is_valid_variable_name str then .ok (.Var str)
      else .error ("Invalid variable name: " ++ str)
    | .StringSyntax str => .ok (.StringExpr str)
    | .TrueSyntax => .ok .True
    | .FalseSyntax => .ok .False
    | .List stxs => parseList (parse fuel) stxs env

/-- The result of one evaluation step: the value, the (possibly
re-seated) environment head — `eval` takes `Assoc &e` by reference and
`Define::eval` reassigns it — and the updated heap. -/
abbrev EvalResult := Value × Env × Store

/-- The type of the recursive evaluator passed to the loop helpers. -/
abbrev EvalFn := Expr → Env → Store → Except String EvalResult

/-- `Unary::eval`: evaluate the operand, then apply the operator. -/
def unEval (ev : EvalFn) (f : Value → Except String Value)
    (rand : Expr) (env : Env) (st : Store) : Except String EvalResult := do
  let (v1, env1, st1) ← ev rand env st
  let v ← f v1
  pure (v, env1, st1)

/-- `Binary::eval`: the C++ call `evalRator(rand1->eval(e), rand2->eval(e))`
has unsequenced argument evaluation; it is modelled left to right, the
order the specification prescribes everywhere. -/
def binEval (ev : EvalFn) (f : Value → Value → Except String Value)
    (rand1 rand2 : Expr) (env : Env) (st : Store) : Except String EvalResult := do
  let (v1, env1, st1) ← ev rand1 env st
  let (v2, env2, st2) ← ev rand2 env1 st1
  let v ← f v1 v2
  pure (v, env2, st2)

/-- The operand loop of `Variadic::eval` and `Apply::eval`: left to
right, threading the environment reference. -/
def evalRands (ev : EvalFn) :
    List Expr → Env → Store → Except String (List Value × Env × Store)
  | [], env, st => .ok ([], env, st)
  | e :: rest, env, st => do
    let (v, env1, st1) ← ev e env st
    let (vs, env2, st2) ← evalRands ev rest env1 st1
    pure (v :: vs, env2, st2)

/-- `Variadic::eval`: evaluate all operands, then apply the operator. -/
def varEval (ev : EvalFn) (f : List Value → Except String Value)
    (rands : List Expr) (env : Env) (st : Store) : Except String EvalResult := do
  let (vs, env1, st1) ← evalRands ev rands env st
  let v ← f vs
  pure (v, env1, st1)

/-- The loop of `Begin::eval`: `res` starts as `Void` and is replaced
by each sub-result in turn. -/
def beginLoop (ev : EvalFn) :
    Value → List Expr → Env → Store → Except String EvalResult
  | res, [], env, st => .ok (res, env, st)
  | _, e :: rest, env, st => do
    let (v, env1, st1) ← ev e env st
    beginLoop ev v rest env1 st1

/-- The loop of `AndVar::eval`: stop with `#f` at the first operand
whose value is the boolean false (later operands unevaluated), else
remember the operand's value in `last`. -/
def andLoop (ev : EvalFn) :
    Value → List Expr → Env → Store → Except String EvalResult
  | last, [], env, st => .ok (last, env, st)
  | _, e :: rest, env, st => do
    let (cur, env1, st1) ← ev e env st
    match cur with
    | .Boolean false => .ok (.Boolean false, env1, st1)
    | _ => andLoop ev cur rest env1 st1

/-- The loop of `OrVar::eval`: return the first operand value that is
not the boolean false (later operands unevaluated); `#f` if none. -/
def orLoop (ev : EvalFn) :
    List Expr → Env → Store → Except String EvalResult
  | [], env, st => .ok (.Boolean false, env, st)
  | e :: rest, env, st => do
    let (cur, env1, st1) ← ev e env st
    match cur with
    | .Boolean false => orLoop ev rest env1 st1
    | _ => .ok (cur, env1, st1)

/-- The binding loop of `Let::eval`: each binding expression is
evaluated against the caller's environment reference (`env`, threaded),
while `let_env` accumulates the new frames for the body. -/
def letLoop (ev : EvalFn) :
    List (String × Expr) → Env → Env → Store → Except String (Env × Env × Store)
  | [], letEnv, env, st => .ok (letEnv, env, st)
  | (x, ex) :: rest, letEnv, env, st => do
    let (v, env1, st1) ← ev ex env st
    let (letEnv1, st2) := extend x (some v) letEnv st1
    letLoop ev rest letEnv1 env1 st2

/-- The first loop of `Letrec::eval`: one placeholder (null-`Value`)
frame per binding, all allocated before anything is evaluated. -/
def allocPlaceholders : List (String × Expr) → Env → Store → Env × Store
  | [], env, st => (env, st)
  | (x, _) :: rest, env, st =>
    let (env1, st1) := extend x none env st
    allocPlaceholders rest env1 st1

/-- The second loop of `Letrec::eval`: each binding expression is
evaluated in the fully extended environment (`rec_env`, passed by
reference and threaded), then its placeholder frame is mutated in
place. -/
def letrecBinds (ev : EvalFn) :
    List (String × Expr) → Env → Store → Except String (Env × Store)
  | [], recEnv, st => .ok (recEnv, st)
  | (x, ex) :: rest, recEnv, st => do
    let (v, recEnv1, st1) ← ev ex recEnv st
    let st2 ← modifyEnv x v recEnv1 st1
    letrecBinds ev rest recEnv1 st2

/-- The parameter-binding loop of `Apply::eval`: extend the procedure's
closure environment with each parameter bound to its argument, in
order.  Called only with lists of equal length. -/
def extendParams : List String → List Value → Env → Store → Env × Store
  | x :: xs, v :: vs, env, st =>
    let (env1, st1) := extend x (some v) env st
    extendParams xs vs env1 st1
  | _, _, env, st => (env, st)

/-- The canonical first-class form of each primitive: the
`primitive_map` literal built inside `Var::eval`, mapping a primitive's
tag to the expression body and parameter names of the `Procedure` that
reifies it. -/
def primitive_map (t : ExprType) : Option (Expr × List String) :=
  match t with
  | .E_VOID => some (.MakeVoid, [])
  | .E_EXIT => some (.Exit, [])
  | .E_BOOLQ => some (.IsBoolean (.Var "parm"), ["parm"])
  | .E_INTQ => some (.IsFixnum (.Var "parm"), ["parm"])
  | .E_NULLQ => some (.IsNull (.Var "parm"), ["parm"])
  | .E_PAIRQ => some (.IsPair (.Var "parm"), ["parm"])
  | .E_PROCQ => some (.IsProcedure (.Var "parm"), ["parm"])
  | .E_SYMBOLQ => some (.IsSymbol (.Var "parm"), ["parm"])
  | .E_STRINGQ => some (.IsString (.Var "parm"), ["parm"])
  | .E_LISTQ => some (.IsList (.Var "parm"), ["parm"])
  | .E_DISPLAY => some (.Display (.Var "parm"), ["parm"])
  | .E_PLUS => some (.Plus (.Var "parm1") (.Var "parm2"), ["parm1", "parm2"])
  | .E_MINUS => some (.Minus (.Var "parm1") (.Var "parm2"), ["parm1", "parm2"])
  | .E_MUL => some (.Mult (.Var "parm1") (.Var "parm2"), ["parm1", "parm2"])
  | .E_DIV => some (.Div (.Var "parm1") (.Var "parm2"), ["parm1", "parm2"])
  | .E_MODULO => some (.Modulo (.Var "parm1") (.Var "parm2"), ["parm1", "parm2"])
  | .E_EXPT => some (.Expt (.Var "parm1") (.Var "parm2"), ["parm1", "parm2"])
  | .E_LT => some (.Less (.Var "parm1") (.Var "parm2"), ["parm1", "parm2"])
  | .E_LE => some (.LessEq (.Var "parm1") (.Var "parm2"), ["parm1", "parm2"])
  | .E_EQ => some (.Equal (.Var "parm1") (.Var "parm2"), ["parm1", "parm2"])
  | .E_GE => some (.GreaterEq (.Var "parm1") (.Var "parm2"), ["parm1", "parm2"])
  | .E_GT => some (.Greater (.Var "parm1") (.Var "parm2"), ["parm1", "parm2"])
  | .E_EQQ => some (.IsEq (.Var "parm1") (.Var "parm2"), ["parm1", "parm2"])
  | .E_CONS => some (.Cons (.Var "parm1") (.Var "parm2"), ["parm1", "parm2"])
  | .E_CAR => some (.Car (.Var "parm"), ["parm"])
  | .E_CDR => some (.Cdr (.Var "parm"), ["parm"])
  | .E_LIST => some (.ListFunc [.Var "parm1", .Var "parm2"], ["parm1", "parm2"])
  | .E_SETCAR => some (.SetCar (.Var "parm1") (.Var "parm2"), ["parm1", "parm2"])
  | .E_SETCDR => some (.SetCdr (.Var "parm1") (.Var "parm2"), ["parm1", "parm2"])
  | .E_NOT => some (.Not (.Var "parm"), ["parm"])
  | .E_AND => some (.AndVar [.Var "parm1", .Var "parm2"], ["parm1", "parm2"])
  | .E_OR => some (.OrVar [.Var "parm1", .Var "parm2"], ["parm1", "parm2"])
  | _ => none

/-- The evaluator (`eval` methods of `evaluation.cpp`), one case per
expression variant.  Fuel bounds the recursion depth only; "out of
fuel" stands for the unbounded recursion of the source. -/
def eval : Nat → Expr → Env → Store → Except String EvalResult
  | 0, _, _, _ => .error "out of fuel"
  | fuel + 1, e, env, st =>
    match e with
    | .Fixnum n => .ok (.Integer n, env, st)
    | .RationalNum num den => do
      let v ← RationalV num den
      pure (v, env, st)
    | .StringExpr s => .ok (.String s, env, st)
    | .True => .ok (.Boolean true, env, st)
    | .False => .ok (.Boolean false, env, st)
    | .MakeVoid => .ok (.Void, env, st)
    | .Exit => .ok (.Terminate, env, st)
    | .Var x =>
      (match find x env st with
       | some v => .ok (v, env, st)
       | none =>
         match primitives.lookup x with
         | some t =>
           (match primitive_map t with
            | some (body, params) => .ok (.Procedure params body env, env, st)
            | none => .error ("undefined variable: " ++ x))
         | none => .error ("undefined variable: " ++ x))
    | .Plus rand1 rand2 => binEval (eval fuel) Plus.evalRator rand1 rand2 env st
    | .Minus rand1 rand2 => binEval (eval fuel) Minus.evalRator rand1 rand2 env st
    | .Mult rand1 rand2 => binEval (eval fuel) Mult.evalRator rand1 rand2 env st
    | .Div rand1 rand2 => binEval (eval fuel) Div.evalRator rand1 rand2 env st
    | .Modulo rand1 rand2 => binEval (eval fuel) Modulo.evalRator rand1 rand2 env st
    | .Expt rand1 rand2 => binEval (eval fuel) Expt.evalRator rand1 rand2 env st
    | .PlusVar rands => varEval (eval fuel) PlusVar.evalRator rands env st
    | .MinusVar rands => varEval (eval fuel) MinusVar.evalRator rands env st
    | .MultVar rands => varEval (eval fuel) MultVar.evalRator rands env st
    | .DivVar rands => varEval (eval fuel) DivVar.evalRator rands env st
    | .Less rand1 rand2 => binEval (eval fuel) Less.evalRator rand1 rand2 env st
    | .LessEq rand1 rand2 => binEval (eval fuel) LessEq.evalRator rand1 rand2 env st
    | .Equal rand1 rand2 => binEval (eval fuel) Equal.evalRator rand1 rand2 env st
    | .GreaterEq rand1 rand2 => binEval (eval fuel) GreaterEq.evalRator rand1 rand2 env st
    | .Greater rand1 rand2 => binEval (eval fuel) Greater.evalRator rand1 rand2 env st
    | .LessVar rands => varEval (eval fuel) LessVar.evalRator rands env st
    | .LessEqVar rands => varEval (eval fuel) LessEqVar.evalRator rands env st
    | .EqualVar rands => varEval (eval fuel) EqualVar.evalRator rands env st
    | .GreaterEqVar rands => varEval (eval fuel) GreaterEqVar.evalRator rands env st
    | .GreaterVar rands => varEval (eval fuel) GreaterVar.evalRator rands env st
    | .Cons rand1 rand2 => binEval (eval fuel) Cons.evalRator rand1 rand2 env st
    | .Car rand => unEval (eval fuel) Car.evalRator rand env st
    | .Cdr rand => unEval (eval fuel) Cdr.evalRator rand env st
    | .ListFunc rands => varEval (eval fuel) ListFunc.evalRator rands env st
    | .SetCar rand1 rand2 => binEval (eval fuel) SetCar.evalRator rand1 rand2 env st
    | .SetCdr rand1 rand2 => binEval (eval fuel) SetCdr.evalRator rand1 rand2 env st
    | .Not rand => unEval (eval fuel) Not.evalRator rand env st
    | .AndVar rands =>
      (match rands with
       | [] => .ok (.Boolean true, env, st)
       | _ => andLoop (eval fuel) (.Boolean true) rands env st)
    | .OrVar rands =>
      (match rands with
       | [] => .ok (.Boolean false, env, st)
       | _ => orLoop (eval fuel) rands env st)
    | .IsEq rand1 rand2 => binEval (eval fuel) IsEq.evalRator rand1 rand2 env st
    | .IsBoolean rand => unEval (eval fuel) IsBoolean.evalRator rand env st
    | .IsFixnum rand => unEval (eval fuel) IsFixnum.evalRator rand env st
    | .IsNull rand => unEval (eval fuel) IsNull.evalRator rand env st
    | .IsPair rand => unEval (eval fuel) IsPair.evalRator rand env st
    | .IsProcedure rand => unEval (eval fuel) IsProcedure.evalRator rand env st
    | .IsSymbol rand => unEval (eval fuel) IsSymbol.evalRator rand env st
    | .IsString rand => unEval (eval fuel) IsString.evalRator rand env st
    | .IsList rand => unEval (eval fuel) IsList.evalRator rand env st
    | .Display rand => unEval (eval fuel) Display.evalRator rand env st
    | .Begin es => beginLoop (eval fuel) .Void es env st
    | .Quote s => do
      let v ← convertSyntaxToValue fuel s
      pure (v, env, st)
    | .If cond conseq alter => do
      let (c, env1, st1) ← eval fuel cond env st
      match c with
      | .Boolean false => eval fuel alter env1 st1
      | _ => eval fuel conseq env1 st1
    | .Cond _ => .error "Cond::eval is unimplemented in the source"
    | .Lambda x body => .ok (.Procedure x body env, env, st)
    | .Apply rator rands => do
      let (ratorV, env1, st1) ← eval fuel rator env st
      match ratorV with
      | .Procedure parameters body penv => do
        let (args, env2, st2) ← evalRands (eval fuel) rands env1 st1
        if args.length ≠ parameters.length then .error "Wrong number of arguments"
        else do
          let (paramEnv, st3) := extendParams parameters args penv st2
          let (v, _, st4) ← eval fuel body paramEnv st3
          pure (v, env2, st4)
      | _ => .error "Attempt to apply a non-procedure"
    | .Define var ex => do
      let (recEnv, st1) := extend var none env st
      let (v, recEnv1, st2) ← eval fuel ex recEnv st1
      let st3 ← modifyEnv var v recEnv1 st2
      pure (.Void, recEnv1, st3)
    | .Let bind body => do
      let (letEnv, env1, st1) ← letLoop (eval fuel) bind env env st
      let (v, _, st2) ← eval fuel body letEnv st1
      pure (v, env1, st2)
    | .Letrec bind body => do
      let (recEnv, st1) := allocPlaceholders bind env st
      let (recEnv2, st2) ← letrecBinds (eval fuel) bind recEnv st1
      let (v, _, st3) ← eval fuel body recEnv2 st2
      pure (v, env, st3)
    | .Set var ex => do
      let (v, env1, st1) ← eval fuel ex env st
      let st2 ← modifyEnv var v env1 st1
      pure (.Void, env1, st2)

/-- The `Rational` well-formedness invariant of §3, extended through
pairs (the only values that contain other values; a procedure's body is
unevaluated syntax and its captured environment lives in the store). -/
def ratOKb : Value → Bool
  | .Rational n d => decide (0 < d) && decide (Nat.gcd n.natAbs d.natAbs = 1)
  | .Pair a b => ratOKb a && ratOKb b
  | _ => true

/-- All values stored in environment nodes satisfy the invariant. -/
def StoreOK (st : Store) : Prop :=
  ∀ node ∈ st, ∀ v, node.v = some v → ratOKb v = true

/-- An evaluator preserves the invariant: from a well-formed store it
produces a well-formed value and a well-formed store. -/
def PreservesOK (ev : EvalFn) : Prop :=
  ∀ e env st v env' st', StoreOK st → ev e env st = .ok (v, env', st') →
    ratOKb v = true ∧ StoreOK st'

/-- The two entry points of §6 composed: translate a syntax tree and
evaluate the resulting expression, starting from the empty top-level
environment and an empty heap; the result is the final value. -/
def run (fuel : Nat) (s : SynTree) : Except String Value := do
  let e ← parse fuel s none
  let (v, _, _) ← eval fuel e none []
  pure v

/-- The mutual-recursion program of the claim:
`(letrec ((even? (lambda (n) (if (= n 0) #t (odd? (- n 1)))))
          (odd?  (lambda (n) (if (= n 0) #f (even? (- n 1))))))
   (even? 10))`. -/
def evenOddLetrec : SynTree :=
  .List [.SymbolSyntax "letrec",
    .List [
      .List [.SymbolSyntax "even?",
        .List [.SymbolSyntax "lambda", .List [.SymbolSyntax "n"],
          .List [.SymbolSyntax "if",
            .List [.SymbolSyntax "=", .SymbolSyntax "n", .Number 0],
            .TrueSyntax,
            .List [.SymbolSyntax "odd?",
              .List [.SymbolSyntax "-", .SymbolSyntax "n", .Number 1]]]]],
      .List [.SymbolSyntax "odd?",
        .List [.SymbolSyntax "lambda", .List [.SymbolSyntax "n"],
          .List [.SymbolSyntax "if",
            .List [.SymbolSyntax "=", .SymbolSyntax "n", .Number 0],
            .FalseSyntax,
            .List [.SymbolSyntax "even?",
              .List [.SymbolSyntax "-", .SymbolSyntax "n", .Number 1]]]]]],
    .List [.SymbolSyntax "even?", .Number 10]]

/-! ## Helper lemmas shared by the claim proofs -/

/-- The Euclid loop computes `Nat.gcd` whenever the fuel exceeds the
second operand. -/
theorem gcdFuel_eq (f a b : Nat) (h : b < f) : gcdFuel f a b = Nat.gcd a b := by
  induction f generalizing a b with
  | zero => omega
  | succ f ih =>
    cases b with
    | zero => simp [gcdFuel]
    | succ b =>
      have h1 : a % (b + 1) < b + 1 := Nat.mod_lt _ (Nat.succ_pos b)
      have h2 : a % (b + 1) < f := by omega
      have h3 : gcdFuel (f + 1) a (b + 1) = gcdFuel f (b + 1) (a % (b + 1)) := rfl
      rw [h3, ih _ _ h2, Nat.gcd_comm (b + 1) (a % (b + 1)), ← Nat.gcd_rec, Nat.gcd_comm]

/-- `util::gcd` agrees with the library `Int.gcd` (as a non-negative
integer). -/
theorem util_gcd_eq (a b : Int) : util.gcd a b = Int.ofNat (Int.gcd a b) := by
  unfold util.gcd
  rw [gcdFuel_eq _ _ _ (Nat.lt_succ_self _)]
  rfl

/-- Characterization of `util::normalize_rational` on a nonzero
denominator: the result has a nonzero denominator of the same sign as
the input one, coprime absolute parts, and represents the same
rational number.  (It does NOT force the denominator positive.) -/
theorem normalize_rational_spec (num den : Int) (hd : den ≠ 0) :
    (util.normalize_rational num den).2 ≠ 0 ∧
    Nat.gcd (util.normalize_rational num den).1.natAbs
      (util.normalize_rational num den).2.natAbs = 1 ∧
    (util.normalize_rational num den).1 * den = num * (util.normalize_rational num den).2 ∧
    (0 < den ↔ 0 < (util.normalize_rational num den).2) := by
  have hgcd : util.gcd num den = Int.ofNat (Int.gcd num den) := util_gcd_eq num den
  have hgpos : 0 < Int.gcd num den := Int.gcd_pos_of_ne_zero_right num hd
  have hdvd1 : (Int.ofNat (Int.gcd num den)) ∣ num := Int.gcd_dvd_left
  have hdvd2 : (Int.ofNat (Int.gcd num den)) ∣ den := Int.gcd_dvd_right
  have hgpos' : (0 : Int) < Int.ofNat (Int.gcd num den) := Int.ofNat_pos.mpr hgpos
  set g : Int := Int.ofNat (Int.gcd num den) with hg
  have hnum : g * (num.tdiv g) = num := Int.mul_tdiv_cancel' hdvd1
  have hden : g * (den.tdiv g) = den := Int.mul_tdiv_cancel' hdvd2
  have hres : util.normalize_rational num den = (num.tdiv g, den.tdiv g) := by
    unfold util.normalize_rational
    rw [← hgcd]
  rw [hres]
  have hd2 : den.tdiv g ≠ 0 := by
    intro h0
    rw [h0, mul_zero] at hden
    exact hd hden.symm
  refine ⟨hd2, ?_, ?_, ?_⟩
  · have h1 : (num.tdiv g).natAbs = num.natAbs / Int.gcd num den := by
      rw [Int.natAbs_tdiv, hg]
      rfl
    have h2 : (den.tdiv g).natAbs = den.natAbs / Int.gcd num den := by
      rw [Int.natAbs_tdiv, hg]
      rfl
    rw [h1, h2]
    exact Nat.coprime_div_gcd_div_gcd hgpos
  · calc num.tdiv g * den = num.tdiv g * (g * den.tdiv g) := by rw [hden]
    _ = (g * num.tdiv g) * den.tdiv g := by ring
    _ = num * den.tdiv g := by rw [hnum]
  · constructor
    · intro hpos
      by_contra hnp
      push_neg at hnp
      have : g * (den.tdiv g) ≤ 0 := mul_nonpos_of_nonneg_of_nonpos (le_of_lt hgpos') hnp
      rw [hden] at this
      omega
    · intro hpos
      have : 0 < g * (den.tdiv g) := mul_pos hgpos' hpos
      rw [hden] at this
      exact this

/-- Characterization of the `Rational` constructor on a nonzero
denominator: the constructed value is in lowest terms with a strictly
positive denominator and represents `num/den`. -/
theorem RationalV_ok_spec (num den : Int) (hd : den ≠ 0) :
    ∃ n d : Int, RationalV num den = .ok (.Rational n d) ∧ 0 < d ∧
      Nat.gcd n.natAbs d.natAbs = 1 ∧ n * den = num * d := by
  unfold RationalV
  rw [if_neg hd]
  by_cases hneg : den < 0
  · have hnd : (-den) ≠ 0 := by omega
    obtain ⟨h1, h2, h3, h4⟩ := normalize_rational_spec (-num) (-den) hnd
    simp only [if_pos hneg]
    refine ⟨(util.normalize_rational (-num) (-den)).1,
            (util.normalize_rational (-num) (-den)).2, rfl, ?_, h2, ?_⟩
    · exact h4.mp (by omega)
    · have := h3
      nlinarith [h3]
  · have hpos : 0 < den := by omega
    obtain ⟨h1, h2, h3, h4⟩ := normalize_rational_spec num den hd
    simp only [if_neg hneg]
    exact ⟨(util.normalize_rational num den).1, (util.normalize_rational num den).2,
           rfl, h4.mp hpos, h2, h3⟩

/-- Reduction of a successful `Except` bind. -/
theorem exc_bind_ok {α β ε : Type} (a : α) (f : α → Except ε β) :
    (Except.ok a >>= f) = f a := rfl

/-- Reduction of a failed `Except` bind. -/
theorem exc_bind_error {α β ε : Type} (e : ε) (f : α → Except ε β) :
    ((Except.error e : Except ε α) >>= f) = .error e := rfl

/-- Every value the `Rational` constructor returns satisfies the
invariant. -/
theorem RationalV_ratOK (num den : Int) (v : Value) (h : RationalV num den = .ok v) :
    ratOKb v = true := by
  by_cases hd : den = 0
  · rw [hd] at h
    simp [RationalV] at h
  · obtain ⟨n, d, heq, hdp, hg, _⟩ := RationalV_ok_spec num den hd
    rw [heq] at h
    cases h
    simp [ratOKb, hdp, hg]

/-- The collapse-to-`Integer` tail shared by all arithmetic operators
yields a well-formed value. -/
theorem collapse_ratOK (n d : Int) (v : Value)
    (h : (if d = 1 then Except.ok (Value.Integer n) else RationalV n d) = .ok v) :
    ratOKb v = true := by
  split at h
  · cases h
    rfl
  · exact RationalV_ratOK n d v h

/-- `Plus::evalRator` only returns well-formed values. -/
theorem Plus_evalRator_ratOK (v1 v2 v : Value) (h : Plus.evalRator v1 v2 = .ok v) :
    ratOKb v = true := by
  unfold Plus.evalRator at h
  rcases hA : toRational v1 with eA | ⟨n1, d1⟩
  · rw [hA] at h
    simp only [exc_bind_error] at h
    simp at h
  rw [hA] at h
  simp only [exc_bind_ok] at h
  rcases hB : toRational v2 with eB | ⟨n2, d2⟩
  · rw [hB] at h
    simp only [exc_bind_error] at h
    simp at h
  rw [hB] at h
  simp only [exc_bind_ok] at h
  exact collapse_ratOK _ _ _ h

/-- `Minus::evalRator` only returns well-formed values. -/
theorem Minus_evalRator_ratOK (v1 v2 v : Value) (h : Minus.evalRator v1 v2 = .ok v) :
    ratOKb v = true := by
  unfold Minus.evalRator at h
  rcases hA : toRational v1 with eA | ⟨n1, d1⟩
  · rw [hA] at h
    simp only [exc_bind_error] at h
    simp at h
  rw [hA] at h
  simp only [exc_bind_ok] at h
  rcases hB : toRational v2 with eB | ⟨n2, d2⟩
  · rw [hB] at h
    simp only [exc_bind_error] at h
    simp at h
  rw [hB] at h
  simp only [exc_bind_ok] at h
  exact collapse_ratOK _ _ _ h

/-- `Mult::evalRator` only returns well-formed values. -/
theorem Mult_evalRator_ratOK (v1 v2 v : Value) (h : Mult.evalRator v1 v2 = .ok v) :
    ratOKb v = true := by
  unfold Mult.evalRator at h
  rcases hA : toRational v1 with eA | ⟨n1, d1⟩
  · rw [hA] at h
    simp only [exc_bind_error] at h
    simp at h
  rw [hA] at h
  simp only [exc_bind_ok] at h
  rcases hB : toRational v2 with eB | ⟨n2, d2⟩
  · rw [hB] at h
    simp only [exc_bind_error] at h
    simp at h
  rw [hB] at h
  simp only [exc_bind_ok] at h
  exact collapse_ratOK _ _ _ h

/-- `Div::evalRator` only returns well-formed values. -/
theorem Div_evalRator_ratOK (v1 v2 v : Value) (h : Div.evalRator v1 v2 = .ok v) :
    ratOKb v = true := by
  unfold Div.evalRator at h
  rcases hA : toRational v1 with eA | ⟨n1, d1⟩
  · rw [hA] at h
    simp only [exc_bind_error] at h
    simp at h
  rw [hA] at h
  simp only [exc_bind_ok] at h
  rcases hB : toRational v2 with eB | ⟨n2, d2⟩
  · rw [hB] at h
    simp only [exc_bind_error] at h
    simp at h
  rw [hB] at h
  simp only [exc_bind_ok] at h
  split at h
  · simp at h
  · exact collapse_ratOK _ _ _ h

/-- `Modulo::evalRator` only returns well-formed values. -/
theorem Modulo_evalRator_ratOK (v1 v2 v : Value) (h : Modulo.evalRator v1 v2 = .ok v) :
    ratOKb v = true := by
  unfold Modulo.evalRator at h
  split at h
  · split at h
    · simp at h
    · cases h
      rfl
  · simp at h

/-- `Expt::evalRator` only returns well-formed values. -/
theorem Expt_evalRator_ratOK (v1 v2 v : Value) (h : Expt.evalRator v1 v2 = .ok v) :
    ratOKb v = true := by
  unfold Expt.evalRator at h
  split at h
  · split at h
    · simp at h
    · split at h
      · simp at h
      · rcases hL : exptLoop _ 1 _ _ with eL | r
        · rw [hL] at h
          simp only [exc_bind_error] at h
          simp at h
        · rw [hL] at h
          simp only [exc_bind_ok] at h
          cases h
          rfl
  · simp at h

/-- `PlusVar::evalRator` only returns well-formed values. -/
theorem PlusVar_evalRator_ratOK (args : List Value) (v : Value)
    (h : PlusVar.evalRator args = .ok v) : ratOKb v = true := by
  unfold PlusVar.evalRator at h
  split at h
  · cases h
    rfl
  · rcases hF : args.foldlM plusStep ((0 : Int), (1 : Int)) with eF | nd
    · rw [hF] at h
      simp only [exc_bind_error] at h
      simp at h
    · rw [hF] at h
      simp only [exc_bind_ok] at h
      exact collapse_ratOK _ _ _ h

/-- `MinusVar::evalRator` only returns well-formed values. -/
theorem MinusVar_evalRator_ratOK (args : List Value) (v : Value)
    (h : MinusVar.evalRator args = .ok v) : ratOKb v = true := by
  cases args with
  | nil => simp [MinusVar.evalRator] at h
  | cons arg0 rest =>
    cases rest with
    | nil =>
      simp only [MinusVar.evalRator] at h
      rcases hA : toRational arg0 with eA | ⟨n1, d1⟩
      · rw [hA] at h
        simp only [exc_bind_error] at h
        simp at h
      · rw [hA] at h
        simp only [exc_bind_ok] at h
        exact collapse_ratOK _ _ _ h
    | cons arg1 rest1 =>
      simp only [MinusVar.evalRator] at h
      rcases hA : toRational arg0 with eA | ⟨n0, d0⟩
      · rw [hA] at h
        simp only [exc_bind_error] at h
        simp at h
      · rw [hA] at h
        simp only [exc_bind_ok] at h
        rcases hF : List.foldlM minusStep (n0, d0) (arg1 :: rest1) with eF | acc
        · rw [hF] at h
          simp only [exc_bind_error] at h
          simp at h
        · rw [hF] at h
          simp only [exc_bind_ok] at h
          exact collapse_ratOK _ _ _ h

/-- `MultVar::evalRator` only returns well-formed values. -/
theorem MultVar_evalRator_ratOK (args : List Value) (v : Value)
    (h : MultVar.evalRator args = .ok v) : ratOKb v = true := by
  unfold MultVar.evalRator at h
  split at h
  · cases h
    rfl
  · rcases hF : args.foldlM multStep ((1 : Int), (1 : Int)) with eF | nd
    · rw [hF] at h
      simp only [exc_bind_error] at h
      simp at h
    · rw [hF] at h
      simp only [exc_bind_ok] at h
      exact collapse_ratOK _ _ _ h

/-- `DivVar::evalRator` only returns well-formed values. -/
theorem DivVar_evalRator_ratOK (args : List Value) (v : Value)
    (h : DivVar.evalRator args = .ok v) : ratOKb v = true := by
  cases args with
  | nil => simp [DivVar.evalRator] at h
  | cons arg0 rest =>
    cases rest with
    | nil =>
      simp only [DivVar.evalRator] at h
      rcases hA : toRational arg0 with eA | ⟨n1, d1⟩
      · rw [hA] at h
        simp only [exc_bind_error] at h
        simp at h
      · rw [hA] at h
        simp only [exc_bind_ok] at h
        split at h
        · simp at h
        · exact collapse_ratOK _ _ _ h
    | cons arg1 rest1 =>
      simp only [DivVar.evalRator] at h
      rcases hA : toRational arg0 with eA | ⟨n0, d0⟩
      · rw [hA] at h
        simp only [exc_bind_error] at h
        simp at h
      · rw [hA] at h
        simp only [exc_bind_ok] at h
        rcases hF : List.foldlM divStep (n0, d0) (arg1 :: rest1) with eF | acc
        · rw [hF] at h
          simp only [exc_bind_error] at h
          simp at h
        · rw [hF] at h
          simp only [exc_bind_ok] at h
          exact collapse_ratOK _ _ _ h

/-- The binary comparison operators all post-process
`compareNumericValues` into a boolean, hence only return well-formed
values. -/
theorem compareThen_ratOK (g : Int → Bool) (v1 v2 v : Value)
    (h : (do
      let c ← compareNumericValues v1 v2
      pure (Value.Boolean (g c)) : Except String Value) = .ok v) :
    ratOKb v = true := by
  rcases hC : compareNumericValues v1 v2 with eC | c
  · rw [hC] at h
    simp only [exc_bind_error] at h
    simp at h
  · rw [hC] at h
    simp only [exc_bind_ok] at h
    cases h
    rfl

/-- The variadic comparison operators post-process `chainCompare` into
a boolean, hence only return well-formed values. -/
theorem chainThen_ratOK (bad : Int → Bool) (args : List Value) (v : Value)
    (h : (do
      let b ← chainCompare bad args
      pure (Value.Boolean b) : Except String Value) = .ok v) :
    ratOKb v = true := by
  rcases hC : chainCompare bad args with eC | b
  · rw [hC] at h
    simp only [exc_bind_error] at h
    simp at h
  · rw [hC] at h
    simp only [exc_bind_ok] at h
    cases h
    rfl

/-- `Cons::evalRator` preserves well-formedness. -/
theorem Cons_evalRator_ratOK (v1 v2 v : Value) (h1 : ratOKb v1 = true)
    (h2 : ratOKb v2 = true) (h : Cons.evalRator v1 v2 = .ok v) : ratOKb v = true := by
  cases h
  simp [ratOKb, h1, h2]

/-- `Car::evalRator` preserves well-formedness. -/
theorem Car_evalRator_ratOK (v1 v : Value) (h1 : ratOKb v1 = true)
    (h : Car.evalRator v1 = .ok v) : ratOKb v = true := by
  unfold Car.evalRator at h
  split at h
  · cases h
    rename_i car cdr
    simp [ratOKb] at h1
    exact h1.1
  · simp at h

/-- `Cdr::evalRator` preserves well-formedness. -/
theorem Cdr_evalRator_ratOK (v1 v : Value) (h1 : ratOKb v1 = true)
    (h : Cdr.evalRator v1 = .ok v) : ratOKb v = true := by
  unfold Cdr.evalRator at h
  split at h
  · cases h
    rename_i car cdr
    simp [ratOKb] at h1
    exact h1.2
  · simp at h

/-- `ListFunc::evalRator` preserves well-formedness. -/
theorem ListFunc_evalRator_ratOK (args : List Value) (v : Value)
    (h1 : ∀ a ∈ args, ratOKb a = true) (h : ListFunc.evalRator args = .ok v) :
    ratOKb v = true := by
  cases h
  induction args with
  | nil => rfl
  | cons a rest ih =>
    have ha : ratOKb a = true := h1 a (by simp)
    have hrest : ∀ b ∈ rest, ratOKb b = true := fun b hb => h1 b (by simp [hb])
    simp only [List.foldr_cons]
    simp [ratOKb, ha, ih hrest]

/-- `IsEq::evalRator` only returns booleans. -/
theorem IsEq_evalRator_ratOK (v1 v2 v : Value) (h : IsEq.evalRator v1 v2 = .ok v) :
    ratOKb v = true := by
  unfold IsEq.evalRator at h
  split at h <;> (cases h; rfl)

/-- `IsBoolean::evalRator` only returns booleans. -/
theorem IsBoolean_evalRator_ratOK (v1 v : Value) (h : IsBoolean.evalRator v1 = .ok v) :
    ratOKb v = true := by
  unfold IsBoolean.evalRator at h
  split at h <;> (cases h; rfl)

/-- `IsFixnum::evalRator` only returns booleans. -/
theorem IsFixnum_evalRator_ratOK (v1 v : Value) (h : IsFixnum.evalRator v1 = .ok v) :
    ratOKb v = true := by
  unfold IsFixnum.evalRator at h
  split at h <;> (cases h; rfl)

/-- `IsNull::evalRator` only returns booleans. -/
theorem IsNull_evalRator_ratOK (v1 v : Value) (h : IsNull.evalRator v1 = .ok v) :
    ratOKb v = true := by
  unfold IsNull.evalRator at h
  split at h <;> (cases h; rfl)

/-- `IsPair::evalRator` only returns booleans. -/
theorem IsPair_evalRator_ratOK (v1 v : Value) (h : IsPair.evalRator v1 = .ok v) :
    ratOKb v = true := by
  unfold IsPair.evalRator at h
  split at h <;> (cases h; rfl)

/-- `IsProcedure::evalRator` only returns booleans. -/
theorem IsProcedure_evalRator_ratOK (v1 v : Value) (h : IsProcedure.evalRator v1 = .ok v) :
    ratOKb v = true := by
  unfold IsProcedure.evalRator at h
  split at h <;> (cases h; rfl)

/-- `IsSymbol::evalRator` only returns booleans. -/
theorem IsSymbol_evalRator_ratOK (v1 v : Value) (h : IsSymbol.evalRator v1 = .ok v) :
    ratOKb v = true := by
  unfold IsSymbol.evalRator at h
  split at h <;> (cases h; rfl)

/-- `IsString::evalRator` only returns booleans. -/
theorem IsString_evalRator_ratOK (v1 v : Value) (h : IsString.evalRator v1 = .ok v) :
    ratOKb v = true := by
  unfold IsString.evalRator at h
  split at h <;> (cases h; rfl)

/-- `IsList::evalRator` only returns booleans. -/
theorem IsList_evalRator_ratOK (v1 v : Value) (h : IsList.evalRator v1 = .ok v) :
    ratOKb v = true := by
  unfold IsList.evalRator at h
  cases h
  rfl

/-- `Not::evalRator` only returns booleans. -/
theorem Not_evalRator_ratOK (v1 v : Value) (h : Not.evalRator v1 = .ok v) :
    ratOKb v = true := by
  unfold Not.evalRator at h
  split at h <;> (cases h; rfl)

/-- `Display::evalRator` returns `Void`. -/
theorem Display_evalRator_ratOK (v1 v : Value) (h : Display.evalRator v1 = .ok v) :
    ratOKb v = true := by
  cases h
  rfl

/-- `SetCar::evalRator` never succeeds (unimplemented). -/
theorem SetCar_evalRator_ratOK (v1 v2 v : Value) (h : SetCar.evalRator v1 v2 = .ok v) :
    ratOKb v = true := by
  simp [SetCar.evalRator] at h

/-- `SetCdr::evalRator` never succeeds (unimplemented). -/
theorem SetCdr_evalRator_ratOK (v1 v2 v : Value) (h : SetCdr.evalRator v1 v2 = .ok v) :
    ratOKb v = true := by
  simp [SetCdr.evalRator] at h

/-- `Binary::eval` preserves the invariant whenever its operator maps
well-formed inputs to a well-formed output. -/
theorem binEval_OK (ev : EvalFn) (f : Value → Value → Except String Value)
    (hev : PreservesOK ev)
    (hf : ∀ v1 v2 v, ratOKb v1 = true → ratOKb v2 = true → f v1 v2 = .ok v →
      ratOKb v = true)
    (e1 e2 : Expr) (env : Env) (st : Store) (v : Value) (env' : Env) (st' : Store)
    (hst : StoreOK st) (h : binEval ev f e1 e2 env st = .ok (v, env', st')) :
    ratOKb v = true ∧ StoreOK st' := by
  unfold binEval at h
  rcases hE1 : ev e1 env st with eE | ⟨v1, env1, st1⟩
  · rw [hE1] at h
    simp only [exc_bind_error] at h
    simp at h
  rw [hE1] at h
  simp only [exc_bind_ok] at h
  obtain ⟨hv1, hst1⟩ := hev e1 env st v1 env1 st1 hst hE1
  rcases hE2 : ev e2 env1 st1 with eE | ⟨v2, env2, st2⟩
  · rw [hE2] at h
    simp only [exc_bind_error] at h
    simp at h
  rw [hE2] at h
  simp only [exc_bind_ok] at h
  obtain ⟨hv2, hst2⟩ := hev e2 env1 st1 v2 env2 st2 hst1 hE2
  rcases hF : f v1 v2 with eF | vr
  · rw [hF] at h
    simp only [exc_bind_error] at h
    simp at h
  rw [hF] at h
  simp only [exc_bind_ok] at h
  cases h
  exact ⟨hf v1 v2 _ hv1 hv2 hF, hst2⟩

/-- `Unary::eval` preserves the invariant whenever its operator maps a
well-formed input to a well-formed output. -/
theorem unEval_OK (ev : EvalFn) (f : Value → Except String Value)
    (hev : PreservesOK ev)
    (hf : ∀ v1 v, ratOKb v1 = true → f v1 = .ok v → ratOKb v = true)
    (e1 : Expr) (env : Env) (st : Store) (v : Value) (env' : Env) (st' : Store)
    (hst : StoreOK st) (h : unEval ev f e1 env st = .ok (v, env', st')) :
    ratOKb v = true ∧ StoreOK st' := by
  unfold unEval at h
  rcases hE1 : ev e1 env st with eE | ⟨v1, env1, st1⟩
  · rw [hE1] at h
    simp only [exc_bind_error] at h
    simp at h
  rw [hE1] at h
  simp only [exc_bind_ok] at h
  obtain ⟨hv1, hst1⟩ := hev e1 env st v1 env1 st1 hst hE1
  rcases hF : f v1 with eF | vr
  · rw [hF] at h
    simp only [exc_bind_error] at h
    simp at h
  rw [hF] at h
  simp only [exc_bind_ok] at h
  cases h
  exact ⟨hf v1 _ hv1 hF, hst1⟩

/-- The operand loop `evalRands` preserves the invariant and yields
only well-formed values. -/
theorem evalRands_OK (ev : EvalFn) (hev : PreservesOK ev) :
    ∀ (es : List Expr) (env : Env) (st : Store) (vs : List Value) (env' : Env)
      (st' : Store), StoreOK st → evalRands ev es env st = .ok (vs, env', st') →
      (∀ a ∈ vs, ratOKb a = true) ∧ StoreOK st' := by
  intro es
  induction es with
  | nil =>
    intro env st vs env' st' hst h
    unfold evalRands at h
    cases h
    exact ⟨by simp, hst⟩
  | cons e rest ih =>
    intro env st vs env' st' hst h
    unfold evalRands at h
    rcases hE : ev e env st with eE | ⟨v1, env1, st1⟩
    · rw [hE] at h
      simp only [exc_bind_error] at h
      simp at h
    rw [hE] at h
    simp only [exc_bind_ok] at h
    obtain ⟨hv1, hst1⟩ := hev e env st v1 env1 st1 hst hE
    rcases hR : evalRands ev rest env1 st1 with eR | ⟨vs2, env2, st2⟩
    · rw [hR] at h
      simp only [exc_bind_error] at h
      simp at h
    rw [hR] at h
    simp only [exc_bind_ok] at h
    obtain ⟨hvs2, hst2⟩ := ih env1 st1 vs2 env2 st2 hst1 hR
    cases h
    refine ⟨?_, hst2⟩
    intro a ha
    rcases List.mem_cons.mp ha with rfl | ha2
    · exact hv1
    · exact hvs2 a ha2

/-- `Variadic::eval` preserves the invariant whenever its operator maps
well-formed inputs to a well-formed output. -/
theorem varEval_OK (ev : EvalFn) (f : List Value → Except String Value)
    (hev : PreservesOK ev)
    (hf : ∀ vs v, (∀ a ∈ vs, ratOKb a = true) → f vs = .ok v → ratOKb v = true)
    (es : List Expr) (env : Env) (st : Store) (v : Value) (env' : Env) (st' : Store)
    (hst : StoreOK st) (h : varEval ev f es env st = .ok (v, env', st')) :
    ratOKb v = true ∧ StoreOK st' := by
  unfold varEval at h
  rcases hR : evalRands ev es env st with eR | ⟨vs, env1, st1⟩
  · rw [hR] at h
    simp only [exc_bind_error] at h
    simp at h
  rw [hR] at h
  simp only [exc_bind_ok] at h
  obtain ⟨hvs, hst1⟩ := evalRands_OK ev hev es env st vs env1 st1 hst hR
  rcases hF : f vs with eF | vr
  · rw [hF] at h
    simp only [exc_bind_error] at h
    simp at h
  rw [hF] at h
  simp only [exc_bind_ok] at h
  cases h
  exact ⟨hf vs _ hvs hF, hst1⟩

/-- `extend` preserves store well-formedness when the stored value (if
any) is well-formed. -/
theorem extend_StoreOK (x : String) (vo : Option Value) (env : Env) (st : Store)
    (hst : StoreOK st) (hvo : ∀ v, vo = some v → ratOKb v = true) :
    StoreOK (extend x vo env st).2 := by
  intro node hmem v hval
  rcases List.mem_append.mp hmem with hin | hin
  · exact hst node hin v hval
  · simp at hin
    subst hin
    exact hvo v hval

/-- Values reached through `find` in a well-formed store are
well-formed. -/
theorem findLoop_ratOK (st : Store) (hst : StoreOK st) :
    ∀ (fuel : Nat) (env : Env) (x : String) (v : Value),
      findLoop st fuel env x = some v → ratOKb v = true := by
  intro fuel
  induction fuel with
  | zero =>
    intro env x v h
    simp [findLoop] at h
  | succ fuel ih =>
    intro env x v h
    cases env with
    | none => simp [findLoop] at h
    | some a =>
      unfold findLoop at h
      split at h
      · simp at h
      · rename_i node hG
        split at h
        · exact hst node (List.getElem?_mem hG) v h
        · exact ih node.next x v h

/-- `find` only returns well-formed values from a well-formed store. -/
theorem find_ratOK (x : String) (env : Env) (st : Store) (v : Value)
    (hst : StoreOK st) (h : find x env st = some v) : ratOKb v = true :=
  findLoop_ratOK st hst st.length env x v h

/-- The `modify` walk preserves store well-formedness when the new
value is well-formed. -/
theorem modifyLoop_StoreOK (st : Store) (hst : StoreOK st) (v : Value)
    (hv : ratOKb v = true) :
    ∀ (fuel : Nat) (env : Env) (x : String) (st' : Store),
      modifyLoop st fuel env x v = .ok st' → StoreOK st' := by
  intro fuel
  induction fuel with
  | zero =>
    intro env x st' h
    simp [modifyLoop] at h
  | succ fuel ih =>
    intro env x st' h
    cases env with
    | none => simp [modifyLoop] at h
    | some a =>
      unfold modifyLoop at h
      split at h
      · simp at h
      · rename_i node hG
        split at h
        · cases h
          intro node2 hmem2 w hw
          rcases List.mem_or_eq_of_mem_set hmem2 with hin | heq
          · exact hst node2 hin w hw
          · subst heq
            simp at hw
            subst hw
            exact hv
        · exact ih node.next x st' h

/-- `modify` preserves store well-formedness when the new value is
well-formed. -/
theorem modifyEnv_StoreOK (x : String) (v : Value) (env : Env) (st st' : Store)
    (hst : StoreOK st) (hv : ratOKb v = true) (h : modifyEnv x v env st = .ok st') :
    StoreOK st' :=
  modifyLoop_StoreOK st hst v hv st.length env x st' h

/-- Placeholder allocation preserves store well-formedness. -/
theorem allocPlaceholders_StoreOK :
    ∀ (bind : List (String × Expr)) (env : Env) (st : Store), StoreOK st →
      StoreOK (allocPlaceholders bind env st).2 := by
  intro bind
  induction bind with
  | nil => intro env st hst; exact hst
  | cons b rest ih =>
    intro env st hst
    unfold allocPlaceholders
    exact ih _ _ (extend_StoreOK b.1 none env st hst (by intro v hv; cases hv))

/-- Parameter binding preserves store well-formedness when all the
argument values are well-formed. -/
theorem extendParams_StoreOK :
    ∀ (xs : List String) (vs : List Value) (env : Env) (st : Store), StoreOK st →
      (∀ a ∈ vs, ratOKb a = true) → StoreOK (extendParams xs vs env st).2 := by
  intro xs
  induction xs with
  | nil =>
    intro vs env st hst _
    cases vs <;> exact hst
  | cons x rest ih =>
    intro vs env st hst hvs
    cases vs with
    | nil => exact hst
    | cons v vrest =>
      unfold extendParams
      refine ih vrest _ _ (extend_StoreOK x (some v) env st hst ?_) ?_
      · intro w hw
        cases hw
        exact hvs v (by simp)
      · intro a ha
        exact hvs a (by simp [ha])

/-- The `Begin` loop preserves the invariant. -/
theorem beginLoop_OK (ev : EvalFn) (hev : PreservesOK ev) :
    ∀ (es : List Expr) (res : Value) (env : Env) (st : Store) (v : Value)
      (env' : Env) (st' : Store), StoreOK st → ratOKb res = true →
      beginLoop ev res es env st = .ok (v, env', st') →
      ratOKb v = true ∧ StoreOK st' := by
  intro es
  induction es with
  | nil =>
    intro res env st v env' st' hst hres h
    unfold beginLoop at h
    cases h
    exact ⟨hres, hst⟩
  | cons e rest ih =>
    intro res env st v env' st' hst hres h
    unfold beginLoop at h
    rcases hE : ev e env st with eE | ⟨v1, env1, st1⟩
    · rw [hE] at h
      simp only [exc_bind_error] at h
      simp at h
    rw [hE] at h
    simp only [exc_bind_ok] at h
    obtain ⟨hv1, hst1⟩ := hev e env st v1 env1 st1 hst hE
    exact ih v1 env1 st1 v env' st' hst1 hv1 h

/-- The `And` loop preserves the invariant. -/
theorem andLoop_OK (ev : EvalFn) (hev : PreservesOK ev) :
    ∀ (es : List Expr) (last : Value) (env : Env) (st : Store) (v : Value)
      (env' : Env) (st' : Store), StoreOK st → ratOKb last = true →
      andLoop ev last es env st = .ok (v, env', st') →
      ratOKb v = true ∧ StoreOK st' := by
  intro es
  induction es with
  | nil =>
    intro last env st v env' st' hst hlast h
    unfold andLoop at h
    cases h
    exact ⟨hlast, hst⟩
  | cons e rest ih =>
    intro last env st v env' st' hst hlast h
    unfold andLoop at h
    rcases hE : ev e env st with eE | ⟨v1, env1, st1⟩
    · rw [hE] at h
      simp only [exc_bind_error] at h
      simp at h
    rw [hE] at h
    simp only [exc_bind_ok] at h
    obtain ⟨hv1, hst1⟩ := hev e env st v1 env1 st1 hst hE
    split at h
    · cases h
      exact ⟨rfl, hst1⟩
    · exact ih v1 env1 st1 v env' st' hst1 hv1 h

/-- The `Or` loop preserves the invariant. -/
theorem orLoop_OK (ev : EvalFn) (hev : PreservesOK ev) :
    ∀ (es : List Expr) (env : Env) (st : Store) (v : Value)
      (env' : Env) (st' : Store), StoreOK st →
      orLoop ev es env st = .ok (v, env', st') →
      ratOKb v = true ∧ StoreOK st' := by
  intro es
  induction es with
  | nil =>
    intro env st v env' st' hst h
    unfold orLoop at h
    cases h
    exact ⟨rfl, hst⟩
  | cons e rest ih =>
    intro env st v env' st' hst h
    unfold orLoop at h
    rcases hE : ev e env st with eE | ⟨v1, env1, st1⟩
    · rw [hE] at h
      simp only [exc_bind_error] at h
      simp at h
    rw [hE] at h
    simp only [exc_bind_ok] at h
    obtain ⟨hv1, hst1⟩ := hev e env st v1 env1 st1 hst hE
    split at h
    · exact ih env1 st1 v env' st' hst1 h
    · cases h
      exact ⟨hv1, hst1⟩

/-- The `Let` binding loop preserves the invariant. -/
theorem letLoop_OK (ev : EvalFn) (hev : PreservesOK ev) :
    ∀ (bind : List (String × Expr)) (letEnv env : Env) (st : Store)
      (letEnv' env' : Env) (st' : Store), StoreOK st →
      letLoop ev bind letEnv env st = .ok (letEnv', env', st') → StoreOK st' := by
  intro bind
  induction bind with
  | nil =>
    intro letEnv env st letEnv' env' st' hst h
    unfold letLoop at h
    cases h
    exact hst
  | cons b rest ih =>
    intro letEnv env st letEnv' env' st' hst h
    unfold letLoop at h
    rcases hE : ev b.2 env st with eE | ⟨v1, env1, st1⟩
    · rw [hE] at h
      simp only [exc_bind_error] at h
      simp at h
    rw [hE] at h
    simp only [exc_bind_ok] at h
    obtain ⟨hv1, hst1⟩ := hev b.2 env st v1 env1 st1 hst hE
    have hst2 : StoreOK (extend b.1 (some v1) letEnv st1).2 := by
      refine extend_StoreOK b.1 (some v1) letEnv st1 hst1 ?_
      intro w hw
      cases hw
      exact hv1
    exact ih _ env1 _ letEnv' env' st' hst2 h

/-- The `Letrec` binding loop preserves the invariant. -/
theorem letrecBinds_OK (ev : EvalFn) (hev : PreservesOK ev) :
    ∀ (bind : List (String × Expr)) (recEnv : Env) (st : Store)
      (recEnv' : Env) (st' : Store), StoreOK st →
      letrecBinds ev bind recEnv st = .ok (recEnv', st') → StoreOK st' := by
  intro bind
  induction bind with
  | nil =>
    intro recEnv st recEnv' st' hst h
    unfold letrecBinds at h
    cases h
    exact hst
  | cons b rest ih =>
    intro recEnv st recEnv' st' hst h
    unfold letrecBinds at h
    rcases hE : ev b.2 recEnv st with eE | ⟨v1, recEnv1, st1⟩
    · rw [hE] at h
      simp only [exc_bind_error] at h
      simp at h
    rw [hE] at h
    simp only [exc_bind_ok] at h
    obtain ⟨hv1, hst1⟩ := hev b.2 recEnv st v1 recEnv1 st1 hst hE
    rcases hM : modifyEnv b.1 v1 recEnv1 st1 with eM | st2
    · rw [hM] at h
      simp only [exc_bind_error] at h
      simp at h
    rw [hM] at h
    simp only [exc_bind_ok] at h
    exact ih recEnv1 st2 recEnv' st' (modifyEnv_StoreOK b.1 v1 recEnv1 st1 st2 hst1 hv1 hM) h

/-- The consing loop of `convertSyntaxToValue` yields a well-formed
value from a well-formed tail and a converter producing well-formed
values. -/
theorem consOnto_ratOK (cs : SynTree → Except String Value)
    (hcs : ∀ s v, cs s = .ok v → ratOKb v = true) :
    ∀ (xs : List SynTree) (tail : Value) (v : Value), ratOKb tail = true →
      consOnto cs xs tail = .ok v → ratOKb v = true := by
  intro xs
  induction xs with
  | nil =>
    intro tail v htail h
    unfold consOnto at h
    cases h
    exact htail
  | cons x rest ih =>
    intro tail v htail h
    unfold consOnto at h
    rcases hT : consOnto cs rest tail with eT | t
    · rw [hT] at h
      simp only [exc_bind_error] at h
      simp at h
    rw [hT] at h
    simp only [exc_bind_ok] at h
    rcases hC : cs x with eC | c
    · rw [hC] at h
      simp only [exc_bind_error] at h
      simp at h
    rw [hC] at h
    simp only [exc_bind_ok] at h
    cases h
    simp [ratOKb, hcs x c hC, ih tail t htail hT]

/-- `convertSyntaxToValue` only produces well-formed values. -/
theorem convertSyntaxToValue_ratOK :
    ∀ (fuel : Nat) (s : SynTree) (v : Value),
      convertSyntaxToValue fuel s = .ok v → ratOKb v = true := by
  intro fuel
  induction fuel with
  | zero =>
    intro s v h
    simp [convertSyntaxToValue] at h
  | succ fuel ih =>
    intro s v h
    cases s with
    | Number n =>
      cases h
      rfl
    | RationalSyntax num den => exact RationalV_ratOK num den v h
    | StringSyntax str =>
      cases h
      rfl
    | SymbolSyntax str =>
      cases h
      rfl
    | TrueSyntax =>
      cases h
      rfl
    | FalseSyntax =>
      cases h
      rfl
    | List stxs =>
      simp only [convertSyntaxToValue] at h
      rcases hS : splitDot stxs with eS | ⟨pre, cdrOpt⟩
      · rw [hS] at h
        simp only [exc_bind_error] at h
        simp at h
      rw [hS] at h
      simp only [exc_bind_ok] at h
      cases cdrOpt with
      | none =>
        dsimp only at h
        exact consOnto_ratOK _ (fun s v hsv => ih s v hsv) pre .Null v rfl h
      | some c =>
        dsimp only at h
        rcases hC : convertSyntaxToValue fuel c with eC | t
        · rw [hC] at h
          simp only [exc_bind_error] at h
          simp at h
        rw [hC] at h
        simp only [exc_bind_ok] at h
        exact consOnto_ratOK _ (fun s v hsv => ih s v hsv) pre t v (ih c t hC) h

/-- `LessVar::evalRator` only returns booleans. -/
theorem LessVar_evalRator_ratOK (args : List Value) (v : Value)
    (h : LessVar.evalRator args = .ok v) : ratOKb v = true := by
  unfold LessVar.evalRator at h
  split at h
  · simp at h
  · exact chainThen_ratOK _ _ _ h

/-- `LessEqVar::evalRator` only returns booleans. -/
theorem LessEqVar_evalRator_ratOK (args : List Value) (v : Value)
    (h : LessEqVar.evalRator args = .ok v) : ratOKb v = true := by
  unfold LessEqVar.evalRator at h
  split at h
  · simp at h
  · exact chainThen_ratOK _ _ _ h

/-- `EqualVar::evalRator` only returns booleans. -/
theorem EqualVar_evalRator_ratOK (args : List Value) (v : Value)
    (h : EqualVar.evalRator args = .ok v) : ratOKb v = true := by
  unfold EqualVar.evalRator at h
  split at h
  · simp at h
  · exact chainThen_ratOK _ _ _ h

/-- `GreaterEqVar::evalRator` only returns booleans. -/
theorem GreaterEqVar_evalRator_ratOK (args : List Value) (v : Value)
    (h : GreaterEqVar.evalRator args = .ok v) : ratOKb v = true := by
  unfold GreaterEqVar.evalRator at h
  split at h
  · simp at h
  · exact chainThen_ratOK _ _ _ h

/-- `GreaterVar::evalRator` only returns booleans. -/
theorem GreaterVar_evalRator_ratOK (args : List Value) (v : Value)
    (h : GreaterVar.evalRator args = .ok v) : ratOKb v = true := by
  unfold GreaterVar.evalRator at h
  split at h
  · simp at h
  · exact chainThen_ratOK _ _ _ h

/-- The interpreter-wide invariant: with any fuel, evaluation started
from a well-formed store produces a well-formed value and leaves the
store well-formed. -/
theorem eval_preserves : ∀ fuel : Nat, PreservesOK (eval fuel) := by
  intro fuel
  induction fuel with
  | zero =>
    intro e env st v env' st' hst h
    simp [eval] at h
  | succ fuel ih =>
    intro e env st v env' st' hst h
    cases e with
    | Fixnum n =>
      simp only [eval] at h
      cases h
      exact ⟨rfl, hst⟩
    | RationalNum num den =>
      simp only [eval] at h
      rcases hR : RationalV num den with eR | w
      · rw [hR] at h
        simp only [exc_bind_error] at h
        simp at h
      · rw [hR] at h
        simp only [exc_bind_ok] at h
        cases h
        exact ⟨RationalV_ratOK num den _ hR, hst⟩
    | StringExpr s =>
      simp only [eval] at h
      cases h
      exact ⟨rfl, hst⟩
    | True =>
      simp only [eval] at h
      cases h
      exact ⟨rfl, hst⟩
    | False =>
      simp only [eval] at h
      cases h
      exact ⟨rfl, hst⟩
    | MakeVoid =>
      simp only [eval] at h
      cases h
      exact ⟨rfl, hst⟩
    | Exit =>
      simp only [eval] at h
      cases h
      exact ⟨rfl, hst⟩
    | Var x =>
      simp only [eval] at h
      split at h
      · rename_i w hF
        cases h
        exact ⟨find_ratOK x env st _ hst hF, hst⟩
      · split at h
        · split at h
          · cases h
            exact ⟨rfl, hst⟩
          · simp at h
        · simp at h
    | Plus e1 e2 =>
      simp only [eval] at h
      exact binEval_OK _ _ ih (fun a b c _ _ hh => Plus_evalRator_ratOK a b c hh)
        _ _ _ _ _ _ _ hst h
    | Minus e1 e2 =>
      simp only [eval] at h
      exact binEval_OK _ _ ih (fun a b c _ _ hh => Minus_evalRator_ratOK a b c hh)
        _ _ _ _ _ _ _ hst h
    | Mult e1 e2 =>
      simp only [eval] at h
      exact binEval_OK _ _ ih (fun a b c _ _ hh => Mult_evalRator_ratOK a b c hh)
        _ _ _ _ _ _ _ hst h
    | Div e1 e2 =>
      simp only [eval] at h
      exact binEval_OK _ _ ih (fun a b c _ _ hh => Div_evalRator_ratOK a b c hh)
        _ _ _ _ _ _ _ hst h
    | Modulo e1 e2 =>
      simp only [eval] at h
      exact binEval_OK _ _ ih (fun a b c _ _ hh => Modulo_evalRator_ratOK a b c hh)
        _ _ _ _ _ _ _ hst h
    | Expt e1 e2 =>
      simp only [eval] at h
      exact binEval_OK _ _ ih (fun a b c _ _ hh => Expt_evalRator_ratOK a b c hh)
        _ _ _ _ _ _ _ hst h
    | PlusVar rands =>
      simp only [eval] at h
      exact varEval_OK _ _ ih (fun vs c _ hh => PlusVar_evalRator_ratOK vs c hh)
        _ _ _ _ _ _ hst h
    | MinusVar rands =>
      simp only [eval] at h
      exact varEval_OK _ _ ih (fun vs c _ hh => MinusVar_evalRator_ratOK vs c hh)
        _ _ _ _ _ _ hst h
    | MultVar rands =>
      simp only [eval] at h
      exact varEval_OK _ _ ih (fun vs c _ hh => MultVar_evalRator_ratOK vs c hh)
        _ _ _ _ _ _ hst h
    | DivVar rands =>
      simp only [eval] at h
      exact varEval_OK _ _ ih (fun vs c _ hh => DivVar_evalRator_ratOK vs c hh)
        _ _ _ _ _ _ hst h
    | Less e1 e2 =>
      simp only [eval] at h
      exact binEval_OK _ _ ih (fun a b c _ _ hh => compareThen_ratOK _ a b c hh)
        _ _ _ _ _ _ _ hst h
    | LessEq e1 e2 =>
      simp only [eval] at h
      exact binEval_OK _ _ ih (fun a b c _ _ hh => compareThen_ratOK _ a b c hh)
        _ _ _ _ _ _ _ hst h
    | Equal e1 e2 =>
      simp only [eval] at h
      exact binEval_OK _ _ ih (fun a b c _ _ hh => compareThen_ratOK _ a b c hh)
        _ _ _ _ _ _ _ hst h
    | GreaterEq e1 e2 =>
      simp only [eval] at h
      exact binEval_OK _ _ ih (fun a b c _ _ hh => compareThen_ratOK _ a b c hh)
        _ _ _ _ _ _ _ hst h
    | Greater e1 e2 =>
      simp only [eval] at h
      exact binEval_OK _ _ ih (fun a b c _ _ hh => compareThen_ratOK _ a b c hh)
        _ _ _ _ _ _ _ hst h
    | LessVar rands =>
      simp only [eval] at h
      exact varEval_OK _ _ ih (fun vs c _ hh => LessVar_evalRator_ratOK vs c hh)
        _ _ _ _ _ _ hst h
    | LessEqVar rands =>
      simp only [eval] at h
      exact varEval_OK _ _ ih (fun vs c _ hh => LessEqVar_evalRator_ratOK vs c hh)
        _ _ _ _ _ _ hst h
    | EqualVar rands =>
      simp only [eval] at h
      exact varEval_OK _ _ ih (fun vs c _ hh => EqualVar_evalRator_ratOK vs c hh)
        _ _ _ _ _ _ hst h
    | GreaterEqVar rands =>
      simp only [eval] at h
      exact varEval_OK _ _ ih (fun vs c _ hh => GreaterEqVar_evalRator_ratOK vs c hh)
        _ _ _ _ _ _ hst h
    | GreaterVar rands =>
      simp only [eval] at h
      exact varEval_OK _ _ ih (fun vs c _ hh => GreaterVar_evalRator_ratOK vs c hh)
        _ _ _ _ _ _ hst h
    | Cons e1 e2 =>
      simp only [eval] at h
      exact binEval_OK _ _ ih Cons_evalRator_ratOK _ _ _ _ _ _ _ hst h
    | Car e1 =>
      simp only [eval] at h
      exact unEval_OK _ _ ih Car_evalRator_ratOK _ _ _ _ _ _ hst h
    | Cdr e1 =>
      simp only [eval] at h
      exact unEval_OK _ _ ih Cdr_evalRator_ratOK _ _ _ _ _ _ hst h
    | ListFunc rands =>
      simp only [eval] at h
      exact varEval_OK _ _ ih ListFunc_evalRator_ratOK _ _ _ _ _ _ hst h
    | SetCar e1 e2 =>
      simp only [eval] at h
      exact binEval_OK _ _ ih (fun a b c _ _ hh => SetCar_evalRator_ratOK a b c hh)
        _ _ _ _ _ _ _ hst h
    | SetCdr e1 e2 =>
      simp only [eval] at h
      exact binEval_OK _ _ ih (fun a b c _ _ hh => SetCdr_evalRator_ratOK a b c hh)
        _ _ _ _ _ _ _ hst h
    | Not e1 =>
      simp only [eval] at h
      exact unEval_OK _ _ ih (fun a c _ hh => Not_evalRator_ratOK a c hh)
        _ _ _ _ _ _ hst h
    | AndVar rands =>
      simp only [eval] at h
      cases rands with
      | nil =>
        cases h
        exact ⟨rfl, hst⟩
      | cons r rest =>
        exact andLoop_OK _ ih (r :: rest) (.Boolean true) env st v env' st' hst rfl h
    | OrVar rands =>
      simp only [eval] at h
      cases rands with
      | nil =>
        cases h
        exact ⟨rfl, hst⟩
      | cons r rest =>
        exact orLoop_OK _ ih (r :: rest) env st v env' st' hst h
    | IsEq e1 e2 =>
      simp only [eval] at h
      exact binEval_OK _ _ ih (fun a b c _ _ hh => IsEq_evalRator_ratOK a b c hh)
        _ _ _ _ _ _ _ hst h
    | IsBoolean e1 =>
      simp only [eval] at h
      exact unEval_OK _ _ ih (fun a c _ hh => IsBoolean_evalRator_ratOK a c hh)
        _ _ _ _ _ _ hst h
    | IsFixnum e1 =>
      simp only [eval] at h
      exact unEval_OK _ _ ih (fun a c _ hh => IsFixnum_evalRator_ratOK a c hh)
        _ _ _ _ _ _ hst h
    | IsNull e1 =>
      simp only [eval] at h
      exact unEval_OK _ _ ih (fun a c _ hh => IsNull_evalRator_ratOK a c hh)
        _ _ _ _ _ _ hst h
    | IsPair e1 =>
      simp only [eval] at h
      exact unEval_OK _ _ ih (fun a c _ hh => IsPair_evalRator_ratOK a c hh)
        _ _ _ _ _ _ hst h
    | IsProcedure e1 =>
      simp only [eval] at h
      exact unEval_OK _ _ ih (fun a c _ hh => IsProcedure_evalRator_ratOK a c hh)
        _ _ _ _ _ _ hst h
    | IsSymbol e1 =>
      simp only [eval] at h
      exact unEval_OK _ _ ih (fun a c _ hh => IsSymbol_evalRator_ratOK a c hh)
        _ _ _ _ _ _ hst h
    | IsString e1 =>
      simp only [eval] at h
      exact unEval_OK _ _ ih (fun a c _ hh => IsString_evalRator_ratOK a c hh)
        _ _ _ _ _ _ hst h
    | IsList e1 =>
      simp only [eval] at h
      exact unEval_OK _ _ ih (fun a c _ hh => IsList_evalRator_ratOK a c hh)
        _ _ _ _ _ _ hst h
    | Display e1 =>
      simp only [eval] at h
      exact unEval_OK _ _ ih (fun a c _ hh => Display_evalRator_ratOK a c hh)
        _ _ _ _ _ _ hst h
    | Begin es =>
      simp only [eval] at h
      exact beginLoop_OK _ ih es .Void env st v env' st' hst rfl h
    | Quote s =>
      simp only [eval] at h
      rcases hC : convertSyntaxToValue fuel s with eC | w
      · rw [hC] at h
        simp only [exc_bind_error] at h
        simp at h
      · rw [hC] at h
        simp only [exc_bind_ok] at h
        cases h
        exact ⟨convertSyntaxToValue_ratOK fuel s _ hC, hst⟩
    | If cond conseq alter =>
      simp only [eval] at h
      rcases hC : eval fuel cond env st with eC | ⟨c, env1, st1⟩
      · rw [hC] at h
        simp only [exc_bind_error] at h
        simp at h
      · rw [hC] at h
        simp only [exc_bind_ok] at h
        obtain ⟨_, hst1⟩ := ih cond env st c env1 st1 hst hC
        split at h
        · exact ih alter env1 st1 v env' st' hst1 h
        · exact ih conseq env1 st1 v env' st' hst1 h
    | Cond clauses =>
      simp [eval] at h
    | Lambda x body =>
      simp only [eval] at h
      cases h
      exact ⟨rfl, hst⟩
    | Apply rator rands =>
      simp only [eval] at h
      rcases hR : eval fuel rator env st with eR | ⟨rv, env1, st1⟩
      · rw [hR] at h
        simp only [exc_bind_error] at h
        simp at h
      rw [hR] at h
      simp only [exc_bind_ok] at h
      obtain ⟨hrv, hst1⟩ := ih rator env st rv env1 st1 hst hR
      split at h
      · rename_i parameters body penv
        rcases hA : evalRands (eval fuel) rands env1 st1 with eA | ⟨args, env2, st2⟩
        · rw [hA] at h
          simp only [exc_bind_error] at h
          simp at h
        rw [hA] at h
        simp only [exc_bind_ok] at h
        obtain ⟨hargs, hst2⟩ := evalRands_OK _ ih rands env1 st1 args env2 st2 hst1 hA
        split at h
        · simp at h
        · rcases hEP : extendParams parameters args penv st2 with ⟨paramEnv, st3⟩
          rw [hEP] at h
          dsimp only at h
          have hst3 : StoreOK st3 := by
            have := extendParams_StoreOK parameters args penv st2 hst2 hargs
            rw [hEP] at this
            exact this
          rcases hB : eval fuel body paramEnv st3 with eB | ⟨bv, benv, st4⟩
          · rw [hB] at h
            simp only [exc_bind_error] at h
            simp at h
          rw [hB] at h
          simp only [exc_bind_ok] at h
          obtain ⟨hbv, hst4⟩ := ih body paramEnv st3 bv benv st4 hst3 hB
          cases h
          exact ⟨hbv, hst4⟩
      · simp at h
    | Define var ex =>
      simp only [eval] at h
      rcases hEx : extend var none env st with ⟨recEnv, st1⟩
      rw [hEx] at h
      dsimp only at h
      have hst1 : StoreOK st1 := by
        have := extend_StoreOK var none env st hst (by intro w hw; cases hw)
        rw [hEx] at this
        exact this
      rcases hE : eval fuel ex recEnv st1 with eE | ⟨w, recEnv1, st2⟩
      · rw [hE] at h
        simp only [exc_bind_error] at h
        simp at h
      rw [hE] at h
      simp only [exc_bind_ok] at h
      obtain ⟨hw, hst2⟩ := ih ex recEnv st1 w recEnv1 st2 hst1 hE
      rcases hM : modifyEnv var w recEnv1 st2 with eM | st3
      · rw [hM] at h
        simp only [exc_bind_error] at h
        simp at h
      rw [hM] at h
      simp only [exc_bind_ok] at h
      cases h
      exact ⟨rfl, modifyEnv_StoreOK _ _ _ _ _ hst2 hw hM⟩
    | Let bind body =>
      simp only [eval] at h
      rcases hL : letLoop (eval fuel) bind env env st with eL | ⟨letEnv, env1, st1⟩
      · rw [hL] at h
        simp only [exc_bind_error] at h
        simp at h
      rw [hL] at h
      simp only [exc_bind_ok] at h
      have hst1 : StoreOK st1 := letLoop_OK _ ih bind env env st letEnv env1 st1 hst hL
      rcases hB : eval fuel body letEnv st1 with eB | ⟨bv, benv, st2⟩
      · rw [hB] at h
        simp only [exc_bind_error] at h
        simp at h
      rw [hB] at h
      simp only [exc_bind_ok] at h
      obtain ⟨hbv, hst2⟩ := ih body letEnv st1 bv benv st2 hst1 hB
      cases h
      exact ⟨hbv, hst2⟩
    | Letrec bind body =>
      simp only [eval] at h
      rcases hAP : allocPlaceholders bind env st with ⟨recEnv, st1⟩
      rw [hAP] at h
      dsimp only at h
      have hst1 : StoreOK st1 := by
        have := allocPlaceholders_StoreOK bind env st hst
        rw [hAP] at this
        exact this
      rcases hLB : letrecBinds (eval fuel) bind recEnv st1 with eL | ⟨recEnv2, st2⟩
      · rw [hLB] at h
        simp only [exc_bind_error] at h
        simp at h
      rw [hLB] at h
      simp only [exc_bind_ok] at h
      have hst2 : StoreOK st2 := letrecBinds_OK _ ih bind recEnv st1 recEnv2 st2 hst1 hLB
      rcases hB : eval fuel body recEnv2 st2 with eB | ⟨bv, benv, st3⟩
      · rw [hB] at h
        simp only [exc_bind_error] at h
        simp at h
      rw [hB] at h
      simp only [exc_bind_ok] at h
      obtain ⟨hbv, hst3⟩ := ih body recEnv2 st2 bv benv st3 hst2 hB
      cases h
      exact ⟨hbv, hst3⟩
    | Set var ex =>
      simp only [eval] at h
      rcases hE : eval fuel ex env st with eE | ⟨w, env1, st1⟩
      · rw [hE] at h
        simp only [exc_bind_error] at h
        simp at h
      rw [hE] at h
      simp only [exc_bind_ok] at h
      obtain ⟨hw, hst1⟩ := ih ex env st w env1 st1 hst hE
      rcases hM : modifyEnv var w env1 st1 with eM | st2
      · rw [hM] at h
        simp only [exc_bind_error] at h
        simp at h
      rw [hM] at h
      simp only [exc_bind_ok] at h
      cases h
      exact ⟨rfl, modifyEnv_StoreOK _ _ _ _ _ hst1 hw hM⟩

/-! ## Claim theorems -/

/-- C1 (code_bug): `(+ 1/2 1/3)` does evaluate to the rational `5/6`,
but `(+ 1/2 1/2)` evaluates to the value `Rational 1 1` — a `V_RATIONAL`
value, not the claimed `Integer 1` — because binary `Plus::evalRator`
tests the collapse condition on `lcm(den1, den2)` before renormalizing;
the variadic `PlusVar::evalRator` (which normalizes before the test)
returns the `Integer 1` the specification describes. -/
theorem C1_plus_collapse_bug :
    run 100 (.List [.SymbolSyntax "+", .RationalSyntax 1 2, .RationalSyntax 1 3]) =
      .ok (.Rational 5 6) ∧
    run 100 (.List [.SymbolSyntax "+", .RationalSyntax 1 2, .RationalSyntax 1 2]) =
      .ok (.Rational 1 1) ∧
    Value.Rational 1 1 ≠ Value.Integer 1 ∧
    PlusVar.evalRator [Value.Rational 1 2, Value.Rational 1 2] = .ok (.Integer 1) := by
  refine ⟨rfl, rfl, ?_, rfl⟩
  simp

/-- C2 (code_bug): the translator rejects `(+)` and `(*)` with
"expects at least 2 arguments", so they never reach the evaluator —
even though `PlusVar::evalRator` and `MultVar::evalRator` return the
identities `0` and `1` on an empty operand list exactly as the claim
says.  The `-`/`/` half of the claim does hold: both require at least
one operand, `(- 5)` negates and `(/ 2)` is the reciprocal. -/
theorem C2_zero_arg_identities_bug :
    parse 10 (.List [.SymbolSyntax "+"]) none = .error "+ expects at least 2 arguments" ∧
    parse 10 (.List [.SymbolSyntax "*"]) none = .error "* expects at least 2 arguments" ∧
    PlusVar.evalRator [] = .ok (.Integer 0) ∧
    MultVar.evalRator [] = .ok (.Integer 1) ∧
    run 100 (.List [.SymbolSyntax "-", .Number 5]) = .ok (.Integer (-5)) ∧
    run 100 (.List [.SymbolSyntax "/", .Number 2]) = .ok (.Rational 1 2) ∧
    parse 10 (.List [.SymbolSyntax "-"]) none = .error "- expects at least 1 argument" ∧
    parse 10 (.List [.SymbolSyntax "/"]) none = .error "/ expects at least 1 argument" :=
  ⟨rfl, rfl, rfl, rfl, rfl, rfl, rfl, rfl⟩

/-- C3 (counterexample): `(quote (. 1))` and `(quote (1 .))` do NOT
fail at translation time — `List::parse` wraps the unconverted datum in
a `Quote` expression and succeeds. -/
theorem C3_quote_translation_counterexample :
    parse 10 (.List [.SymbolSyntax "quote", .List [.SymbolSyntax ".", .Number 1]]) none =
      .ok (.Quote (.List [.SymbolSyntax ".", .Number 1])) ∧
    parse 10 (.List [.SymbolSyntax "quote", .List [.Number 1, .SymbolSyntax "."]]) none =
      .ok (.Quote (.List [.Number 1, .SymbolSyntax "."])) :=
  ⟨rfl, rfl⟩

/-- C3 (amended): translating a `quote` form with exactly one operand
wraps the syntax datum, unconverted, in a `Quote` expression (other
operand counts fail translation); the datum is converted to a `Value`
by structural recursion only when the `Quote` expression is evaluated,
and a quoted parenthesized datum whose first element is the literal `.`
symbol, or whose `.` is not followed by exactly one trailing element,
fails at that point — evaluation time — with a malformed-dotted-list
error. -/
theorem C3_quote_eval_malformed :
    (∀ (d : SynTree) (env : Env) (fuel : Nat),
      parse (fuel + 1) (.List [.SymbolSyntax "quote", d]) env = .ok (.Quote d)) ∧
    (∀ (stxs : List SynTree) (env : Env) (fuel : Nat), stxs.length ≠ 1 →
      parse (fuel + 1) (.List (.SymbolSyntax "quote" :: stxs)) env =
        .error "Wrong number of arguments for quote") ∧
    run 10 (.List [.SymbolSyntax "quote", .List [.SymbolSyntax ".", .Number 1]]) =
      .error "quote: malformed dotted list (dot cannot be the first element)" ∧
    run 10 (.List [.SymbolSyntax "quote", .List [.Number 1, .SymbolSyntax "."]]) =
      .error "quote: malformed dotted list (dot must be followed by exactly one element)" := by
  refine ⟨fun d env fuel => rfl, ?_, rfl, rfl⟩
  intro stxs env fuel hlen
  match stxs with
  | [] => rfl
  | [d] => exact absurd rfl hlen
  | d1 :: d2 :: rest => rfl

/-- C3 (witness for the amended theorem). -/
theorem C3_witness :
    ([] : List SynTree).length ≠ 1 ∧
    parse 1 (.List [.SymbolSyntax "quote"]) none =
      .error "Wrong number of arguments for quote" :=
  ⟨by decide, C3_quote_eval_malformed.2.1 [] none 0 (by decide)⟩

/-- C4 (confirmed): `Apply::eval` first evaluates the operator and
fails with the not-a-procedure error when its value is not a
`Procedure`; it then evaluates the operands left to right, fails with
the arity-mismatch error when the argument count differs from the
parameter count, and otherwise evaluates the body in the procedure's
closure environment extended with one frame per parameter/argument
pair — not in the caller's environment.  The two concrete runs show
(a) lexical scoping: `(begin (define x 1) (define f (lambda () x))
(let ((x 2)) (f)))` is `1`, the closure seeing its definition
environment rather than the caller's `x = 2`, and (b) left-to-right
operand evaluation: `((lambda (a b) b) (define x 7) x)` is `7`,
the second operand seeing the first operand's `define`. -/
theorem C4_apply_spec :
    (∀ (fuel : Nat) (rator : Expr) (rands : List Expr) (env : Env) (st : Store)
       (rv : Value) (env1 : Env) (st1 : Store),
      eval fuel rator env st = .ok (rv, env1, st1) →
      (∀ ps b pe, rv ≠ .Procedure ps b pe) →
      eval (fuel + 1) (.Apply rator rands) env st =
        .error "Attempt to apply a non-procedure") ∧
    (∀ (fuel : Nat) (rator : Expr) (rands : List Expr) (env : Env) (st : Store)
       (ps : List String) (b : Expr) (pe : Env) (env1 : Env) (st1 : Store)
       (args : List Value) (env2 : Env) (st2 : Store),
      eval fuel rator env st = .ok (.Procedure ps b pe, env1, st1) →
      evalRands (eval fuel) rands env1 st1 = .ok (args, env2, st2) →
      args.length ≠ ps.length →
      eval (fuel + 1) (.Apply rator rands) env st = .error "Wrong number of arguments") ∧
    (∀ (fuel : Nat) (rator : Expr) (rands : List Expr) (env : Env) (st : Store)
       (ps : List String) (b : Expr) (pe : Env) (env1 : Env) (st1 : Store)
       (args : List Value) (env2 : Env) (st2 : Store),
      eval fuel rator env st = .ok (.Procedure ps b pe, env1, st1) →
      evalRands (eval fuel) rands env1 st1 = .ok (args, env2, st2) →
      args.length = ps.length →
      eval (fuel + 1) (.Apply rator rands) env st =
        Except.map (fun r => (r.1, env2, r.2.2))
          (eval fuel b (extendParams ps args pe st2).1 (extendParams ps args pe st2).2)) ∧
    run 10 (.List [.Number 1, .Number 2]) = .error "Attempt to apply a non-procedure" ∧
    run 100 (.List [.List [.SymbolSyntax "lambda", .List [.SymbolSyntax "x"],
        .SymbolSyntax "x"], .Number 1, .Number 2]) =
      .error "Wrong number of arguments" ∧
    run 100 (.List [.SymbolSyntax "begin",
      .List [.SymbolSyntax "define", .SymbolSyntax "x", .Number 1],
      .List [.SymbolSyntax "define", .SymbolSyntax "f",
        .List [.SymbolSyntax "lambda", .List [], .SymbolSyntax "x"]],
      .List [.SymbolSyntax "let", .List [.List [.SymbolSyntax "x", .Number 2]],
        .List [.SymbolSyntax "f"]]]) = .ok (.Integer 1) ∧
    run 100 (.List [.List [.SymbolSyntax "lambda",
        .List [.SymbolSyntax "a", .SymbolSyntax "b"], .SymbolSyntax "b"],
      .List [.SymbolSyntax "define", .SymbolSyntax "x", .Number 7],
      .SymbolSyntax "x"]) = .ok (.Integer 7) := by
  refine ⟨?_, ?_, ?_, rfl, rfl, rfl, rfl⟩
  · intro fuel rator rands env st rv env1 st1 h1 h2
    simp only [eval]
    rw [h1]
    cases rv
    case Procedure ps b pe => exact absurd rfl (h2 ps b pe)
    all_goals rfl
  · intro fuel rator rands env st ps b pe env1 st1 args env2 st2 h1 h2 hlen
    simp only [eval]
    rw [h1]
    simp only [exc_bind_ok]
    rw [h2]
    simp only [exc_bind_ok]
    rw [if_pos hlen]
  · intro fuel rator rands env st ps b pe env1 st1 args env2 st2 h1 h2 hlen
    simp only [eval]
    rw [h1]
    simp only [exc_bind_ok]
    rw [h2]
    simp only [exc_bind_ok]
    rw [if_neg (by omega)]
    rcases hEP : extendParams ps args pe st2 with ⟨paramEnv, st3⟩
    dsimp only
    rcases hB : eval fuel b paramEnv st3 with eB | ⟨bv, benv, st4⟩
    · rfl
    · rfl

/-- C4 (witness): the non-procedure branch applied at `1` in operator
position. -/
theorem C4_witness :
    eval 1 (.Fixnum 1) none [] = .ok (.Integer 1, none, []) ∧
    (∀ ps b pe, Value.Integer 1 ≠ .Procedure ps b pe) ∧
    eval 2 (.Apply (.Fixnum 1) [.Fixnum 2]) none [] =
      .error "Attempt to apply a non-procedure" :=
  ⟨rfl, fun ps b pe h => Value.noConfusion h,
   C4_apply_spec.1 1 (.Fixnum 1) [.Fixnum 2] none [] (.Integer 1) none [] rfl
     (fun ps b pe h => Value.noConfusion h)⟩

/-- C5 (counterexample): `normalize(1, -2)` returns `(1, -2)` — the
denominator keeps the sign of the input, so it is not positive. -/
theorem C5_counterexample :
    util.normalize_rational 1 (-2) = (1, -2) ∧
    ¬ (0 < (util.normalize_rational 1 (-2)).2) := by
  constructor
  · rfl
  · decide

/-- C5 (amended): for all integers `a, b` with `b ≠ 0`,
`normalize(a, b)` yields `(n, d)` with `d ≠ 0`, `gcd(|n|, |d|) = 1` and
`n/d = a/b` (`n·b = a·d`); the denominator keeps the sign of `b`
(`d > 0` exactly when `b > 0`), so the claimed strictly positive
denominator holds only for positive `b`. -/
theorem C5_normalize_characterization (a b : Int) (hb : b ≠ 0) :
    (util.normalize_rational a b).2 ≠ 0 ∧
    Nat.gcd (util.normalize_rational a b).1.natAbs
      (util.normalize_rational a b).2.natAbs = 1 ∧
    (util.normalize_rational a b).1 * b = a * (util.normalize_rational a b).2 ∧
    (0 < b ↔ 0 < (util.normalize_rational a b).2) :=
  normalize_rational_spec a b hb

/-- C5 (witness): the amended characterization at `a = 1`, `b = 2`. -/
theorem C5_witness :
    (2 : Int) ≠ 0 ∧
    ((util.normalize_rational 1 2).2 ≠ 0 ∧
     Nat.gcd (util.normalize_rational 1 2).1.natAbs
       (util.normalize_rational 1 2).2.natAbs = 1 ∧
     (util.normalize_rational 1 2).1 * 2 = 1 * (util.normalize_rational 1 2).2 ∧
     ((0 : Int) < 2 ↔ 0 < (util.normalize_rational 1 2).2)) :=
  ⟨by decide, C5_normalize_characterization 1 2 (by decide)⟩

/-- C6 (confirmed): the `Rational` constructor rejects a zero
denominator, and on a nonzero one always produces a value in lowest
terms with a strictly positive denominator representing the same
number; moreover the invariant is preserved by the whole interpreter —
any evaluation started from a well-formed store yields a value whose
every embedded `Rational` is in lowest terms with positive denominator,
and leaves the store well-formed. -/
theorem C6_rational_invariant :
    (∀ (num den : Int), den ≠ 0 →
      ∃ n d : Int, RationalV num den = .ok (.Rational n d) ∧ 0 < d ∧
        Nat.gcd n.natAbs d.natAbs = 1 ∧ n * den = num * d) ∧
    (∀ num : Int, RationalV num 0 = .error "Division by zero") ∧
    (∀ (fuel : Nat) (e : Expr) (env : Env) (st : Store) (v : Value) (env' : Env)
       (st' : Store), StoreOK st → eval fuel e env st = .ok (v, env', st') →
      ratOKb v = true ∧ StoreOK st') := by
  refine ⟨fun num den hd => RationalV_ok_spec num den hd, fun num => by simp [RationalV], ?_⟩
  intro fuel e env st v env' st' hst h
  exact eval_preserves fuel e env st v env' st' hst h

/-- C6 (witness): the empty store is well-formed, and evaluating the
literal rational `2/4` in it yields the reduced, well-formed `1/2`. -/
theorem C6_witness :
    StoreOK [] ∧
    (ratOKb (Value.Rational 1 2) = true ∧ StoreOK []) ∧
    (∃ n d : Int, RationalV 2 4 = .ok (.Rational n d) ∧ 0 < d ∧
      Nat.gcd n.natAbs d.natAbs = 1 ∧ n * 4 = 2 * d) := by
  have hst : StoreOK [] := by
    intro node hmem
    cases hmem
  refine ⟨hst, ?_, C6_rational_invariant.1 2 4 (by decide)⟩
  exact C6_rational_invariant.2.2 1 (.RationalNum 2 4) none [] (.Rational 1 2) none [] hst rfl

/-- C7 (confirmed): `Letrec::eval` first allocates one placeholder
(null-`Value`) frame per binding — before evaluating anything — then
evaluates each binding expression in the fully extended environment and
mutates its placeholder in place, then evaluates the body there; the
first equation exhibits those phases, the second shows a placeholder
frame stores no value (`none`).  Consequently bindings can refer to
each other and to themselves, and the mutual-recursion program
`(letrec ((even? ...) (odd? ...)) (even? 10))` evaluates to `#t`. -/
theorem C7_letrec_spec :
    (∀ (fuel : Nat) (bind : List (String × Expr)) (body : Expr) (env : Env) (st : Store),
      eval (fuel + 1) (.Letrec bind body) env st = (do
        let (recEnv, st1) := allocPlaceholders bind env st
        let (recEnv2, st2) ← letrecBinds (eval fuel) bind recEnv st1
        let (v, _, st3) ← eval fuel body recEnv2 st2
        pure (v, env, st3))) ∧
    (∀ (x : String) (e : Expr) (bind : List (String × Expr)) (env : Env) (st : Store),
      allocPlaceholders ((x, e) :: bind) env st =
        allocPlaceholders bind (some st.length) (st ++ [⟨x, none, env⟩])) ∧
    run 300 evenOddLetrec = .ok (.Boolean true) :=
  ⟨fun fuel bind body env st => rfl, fun x e bind env st => rfl, rfl⟩

/-- C8 (confirmed): `And` returns `#f` at the first operand that
evaluates to the boolean `#f`, without evaluating the remaining
operands (first equation: arbitrary unevaluated tail, and the concrete
run where the tail would raise an error); a non-`#f` run returns the
last operand's value uncoerced; empty `And` is `#t`.  `Or` returns the
first operand value that is not the boolean `#f`, without evaluating
the rest; empty `Or` is `#f`. -/
theorem C8_and_or_spec :
    (∀ (rest : List Expr) (env : Env) (st : Store) (fuel : Nat),
      eval (fuel + 2) (.AndVar (.False :: rest)) env st = .ok (.Boolean false, env, st)) ∧
    (∀ (rest : List Expr) (env : Env) (st : Store) (fuel : Nat),
      eval (fuel + 2) (.OrVar (.Fixnum 5 :: rest)) env st = .ok (.Integer 5, env, st)) ∧
    run 100 (.List [.SymbolSyntax "and", .Number 1, .Number 2, .FalseSyntax, .Number 3]) =
      .ok (.Boolean false) ∧
    run 100 (.List [.SymbolSyntax "or", .FalseSyntax, .FalseSyntax, .Number 5]) =
      .ok (.Integer 5) ∧
    run 100 (.List [.SymbolSyntax "and"]) = .ok (.Boolean true) ∧
    run 100 (.List [.SymbolSyntax "or"]) = .ok (.Boolean false) ∧
    run 100 (.List [.SymbolSyntax "and", .Number 1, .Number 2]) = .ok (.Integer 2) ∧
    run 100 (.List [.SymbolSyntax "and", .Number 1, .Number 2, .FalseSyntax,
      .List [.SymbolSyntax "car", .List [.SymbolSyntax "quote", .List []]]]) =
      .ok (.Boolean false) ∧
    run 100 (.List [.SymbolSyntax "car", .List [.SymbolSyntax "quote", .List []]]) =
      .error "expects argument to be a pair" ∧
    run 100 (.List [.SymbolSyntax "or", .Number 5,
      .List [.SymbolSyntax "car", .List [.SymbolSyntax "quote", .List []]]]) =
      .ok (.Integer 5) :=
  ⟨fun rest env st fuel => rfl, fun rest env st fuel => rfl,
   rfl, rfl, rfl, rfl, rfl, rfl, rfl, rfl⟩

/-- C10 (confirmed): the empty parenthesized sequence `()` translates
successfully — to a quoted empty datum, neither an application nor a
syntax error — and evaluating that expression in any environment and
store yields the `Null` value. -/
theorem C10_empty_list :
    (∀ (fuel : Nat) (env : Env), parse (fuel + 1) (.List []) env = .ok (.Quote (.List []))) ∧
    (∀ (fuel : Nat) (env : Env) (st : Store),
      eval (fuel + 2) (.Quote (.List [])) env st = .ok (.Null, env, st)) ∧
    run 10 (.List []) = .ok .Null :=
  ⟨fun fuel env => rfl, fun fuel env st => rfl, rfl⟩

/-- C9 (confirmed): for every name in the primitive-operator table,
evaluating `Var(name)` where the name is unbound in the environment
yields a `Procedure` wrapping that primitive's canonical expression
form (its `primitive_map` entry) closed over the current environment;
and such a procedure works in application position — `((lambda (f)
(f 1 2)) +)` evaluates to `3` via the reified `+`. -/
theorem C9_first_class_primitives :
    (∀ (name : String) (t : ExprType) (env : Env) (st : Store) (fuel : Nat),
      (name, t) ∈ primitives → find name env st = none →
      ∃ (body : Expr) (params : List String),
        primitive_map t = some (body, params) ∧
        eval (fuel + 1) (.Var name) env st =
          .ok (.Procedure params body env, env, st)) ∧
    run 100 (.List [.List [.SymbolSyntax "lambda", .List [.SymbolSyntax "f"],
      .List [.SymbolSyntax "f", .Number 1, .Number 2]], .SymbolSyntax "+"]) =
      .ok (.Integer 3) := by
  refine ⟨?_, rfl⟩
  intro name t env st fuel hmem hfind
  fin_cases hmem <;>
    exact ⟨_, _, rfl, by simp [eval, hfind, primitives, primitive_map, List.lookup]⟩

/-- C9 (witness): the reification of `+` from the empty environment. -/
theorem C9_witness :
    (("+", ExprType.E_PLUS) ∈ primitives ∧ find "+" none [] = none) ∧
    (∃ (body : Expr) (params : List String),
      primitive_map .E_PLUS = some (body, params) ∧
      eval 1 (.Var "+") none [] = .ok (.Procedure params body none, none, [])) :=
  ⟨⟨by decide, rfl⟩, C9_first_class_primitives.1 "+" .E_PLUS none [] 0 (by decide) rfl⟩
